import Mathlib

/-!
# Verification of the hierarchical kidney-exchange optimiser (`kep_h.py`)

A shallow embedding of `PoolOptimiser` from `kep_h/kep_h.py`: the selection
model builder (`_create_vars_and_constraints`), the lexicographic solve
sequencer and the final-rank solution enumerator (`solve`), together with
theorems settling the specification's claims about them.

The pool data structures (`kep_h_pool.py`) and the MIP solver (gurobipy) are
external to the covered core; the pool types below are modelled from the
spec's data model, and the solver is an oracle parameter whose contract
(feasible assignments on a proven optimum) is an explicit hypothesis where a
claim needs it.
-/

namespace KepH

attribute [local semireducible] Rat.add Rat.sub Rat.mul Rat.inv

deriving instance DecidableEq for Except

/-- Modelled from the spec: a paired donor (`kep_h_pool.py` is not part of the
covered source). Identity plus the list of its linked patients
(`donor.paired_patients`); patients are identified by their id number. -/
structure Donor where
  nhs_id : Nat
  paired_patients : List Nat
deriving DecidableEq, Repr

/-- Modelled from the spec: a patient–donor pair (`pd_pair.patient`,
`pd_pair.donor`). -/
structure PDPair where
  patient : Nat
  donor : Donor
deriving DecidableEq, Repr

/-- Modelled from the spec: a candidate exchange cycle — an ordered list of
patient–donor pairs. -/
structure Cycle where
  pd_pairs : List PDPair
deriving DecidableEq, Repr

/-- Modelled from the spec: a candidate chain — the identity of the initiating
altruist (`chain.altruist_edge.altruist`) and its patient–donor pairs. -/
structure Chain where
  altruist_nhs_id : Nat
  pd_pairs : List PDPair
deriving DecidableEq, Repr

/-- Modelled from the spec: an altruistic donor. -/
structure Altruist where
  nhs_id : Nat
deriving DecidableEq, Repr

/-- Modelled from the spec: the pool — patients, paired donors and altruists. -/
structure Pool where
  patients : List Nat
  paired_donors : List Donor
  altruists : List Altruist
deriving DecidableEq, Repr

/-- Modelled from the spec: an optimality criterion — a direction
(the string `"MAX"` means maximise, anything else minimise, as in
`GRB.MAXIMIZE if opt_criterion.sense=='MAX' else GRB.MINIMIZE`) and a value
function per candidate type. -/
structure OptCriterion where
  sense : String
  cycle_val : Cycle → ℚ
  chain_val : Chain → ℚ
  altruist_val : Altruist → ℚ

/-- The `PoolOptimiser` object: `__init__` stores the criteria sequence and the
pool, and obtains the candidate cycles and chains from the external
`pool.find_cycles` / `pool.find_chains` providers (out of scope; here the
candidate lists are the stored fields). -/
structure PoolOptimiser where
  pool : Pool
  opt_criteria : List OptCriterion
  cycles : List Cycle
  chains : List Chain

/-- The binary decision variables: one per chain, one per cycle
(by position in the candidate lists) and one "unused" variable per altruist
(by position in `pool.altruists`). -/
inductive MIPVar where
  | chainVar (i : Nat)
  | cycleVar (i : Nat)
  | altruistVar (i : Nat)
deriving DecidableEq, Repr

/-- A linear constraint posted on the model: a weighted sum of variables
related to a right-hand side. -/
inductive Rel where
  | le
  | ge
  | eq
deriving DecidableEq, Repr

/-- One model constraint, `sum of coeff*var REL rhs`. -/
structure Constr where
  terms : List (ℚ × MIPVar)
  rel : Rel
  rhs : ℚ
deriving DecidableEq, Repr

/-- The value of a weighted sum of binary variables under an assignment. -/
def evalTerms (x : MIPVar → Bool) (ts : List (ℚ × MIPVar)) : ℚ :=
  (ts.map (fun t => if x t.2 then t.1 else 0)).sum

/-- Whether an assignment satisfies a constraint. -/
def Constr.holds (x : MIPVar → Bool) (c : Constr) : Bool :=
  match c.rel with
  | .le => decide (evalTerms x c.terms ≤ c.rhs)
  | .ge => decide (c.rhs ≤ evalTerms x c.terms)
  | .eq => decide (evalTerms x c.terms = c.rhs)

/-- The model: its variables and its accumulated constraints (constraints are
only ever appended, never retracted). -/
structure GModel where
  vars : List MIPVar
  constrs : List Constr
deriving DecidableEq, Repr

/-- `patient.mip_vars` after `_create_vars_and_constraints`: the chain loop
appends `chain.mip_var` once per pd_pair of the chain whose patient this is
(`_add_var_to_patients_and_donors`), then the cycle loop does the same. -/
def patientMipVars (o : PoolOptimiser) (p : Nat) : List MIPVar :=
  (o.chains.enum.flatMap (fun ic =>
    (ic.2.pd_pairs.filter (fun pr => pr.patient == p)).map
      (fun _ => MIPVar.chainVar ic.1)))
  ++ (o.cycles.enum.flatMap (fun ic =>
    (ic.2.pd_pairs.filter (fun pr => pr.patient == p)).map
      (fun _ => MIPVar.cycleVar ic.1)))

/-- `donor.mip_vars` after `_create_vars_and_constraints`: a candidate's
variable is appended once per pd_pair with this donor, but only when the
pair's donor has more than one paired patient
(`if len(pd_pair.donor.paired_patients) > 1`). -/
def donorMipVars (o : PoolOptimiser) (d : Donor) : List MIPVar :=
  (o.chains.enum.flatMap (fun ic =>
    (ic.2.pd_pairs.filter
      (fun pr => pr.donor == d && decide (1 < pr.donor.paired_patients.length))).map
      (fun _ => MIPVar.chainVar ic.1)))
  ++ (o.cycles.enum.flatMap (fun ic =>
    (ic.2.pd_pairs.filter
      (fun pr => pr.donor == d && decide (1 < pr.donor.paired_patients.length))).map
      (fun _ => MIPVar.cycleVar ic.1)))

/-- `altruist.mip_vars`: its own "unused" variable (appended at creation),
then the variable of every chain it initiates. `j` is the altruist's position
in `pool.altruists`. -/
def altruistMipVars (o : PoolOptimiser) (j : Nat) (a : Altruist) : List MIPVar :=
  MIPVar.altruistVar j ::
    (o.chains.enum.filter (fun ic => ic.2.altruist_nhs_id == a.nhs_id)).map
      (fun ic => MIPVar.chainVar ic.1)

/-- `_create_vars_and_constraints`: one binary variable per chain, cycle and
altruist; for every patient and every paired donor the constraint
`sum(person.mip_vars) <= 1`; for every altruist `sum(altruist.mip_vars) == 1`.
The per-person accumulator lists are rebuilt from scratch (the code clears
`person.mip_vars` at the top of the call). -/
def create_vars_and_constraints (o : PoolOptimiser) : GModel :=
  { vars :=
      (List.range o.chains.length).map MIPVar.chainVar
      ++ (List.range o.cycles.length).map MIPVar.cycleVar
      ++ (List.range o.pool.altruists.length).map MIPVar.altruistVar
    constrs :=
      (o.pool.patients.map (fun p =>
        Constr.mk ((patientMipVars o p).map (fun v => ((1 : ℚ), v))) Rel.le 1))
      ++ (o.pool.paired_donors.map (fun d =>
        Constr.mk ((donorMipVars o d).map (fun v => ((1 : ℚ), v))) Rel.le 1))
      ++ (o.pool.altruists.enum.map (fun ja =>
        Constr.mk ((altruistMipVars o ja.1 ja.2).map (fun v => ((1 : ℚ), v))) Rel.eq 1)) }

/-- The objective expression `z` built in `_optimise`: chains, then cycles,
then altruists, each variable weighted by the criterion's value function. -/
def objectiveTerms (o : PoolOptimiser) (c : OptCriterion) : List (ℚ × MIPVar) :=
  o.chains.enum.map (fun ic => (c.chain_val ic.2, MIPVar.chainVar ic.1))
  ++ o.cycles.enum.map (fun ic => (c.cycle_val ic.2, MIPVar.cycleVar ic.1))
  ++ o.pool.altruists.enum.map (fun ja => (c.altruist_val ja.2, MIPVar.altruistVar ja.1))

/-- The model sense set in `_optimise`. -/
inductive Sense where
  | MAXIMIZE
  | MINIMIZE
deriving DecidableEq, Repr

/-- `GRB.MAXIMIZE if opt_criterion.sense=='MAX' else GRB.MINIMIZE`. -/
def senseOf (c : OptCriterion) : Sense :=
  if c.sense == "MAX" then Sense.MAXIMIZE else Sense.MINIMIZE

/-- The solver statuses the code inspects, with their gurobi codes. -/
inductive GRBStatus where
  | OPTIMAL
  | INFEASIBLE
  | INF_OR_UNBD
  | other (code : Nat)
deriving DecidableEq, Repr

/-- The numeric gurobi status code, as printed by `str(status)`. -/
def GRBStatus.code : GRBStatus → Nat
  | .OPTIMAL => 2
  | .INFEASIBLE => 3
  | .INF_OR_UNBD => 4
  | .other n => n

/-- What one `model.optimize()` call yields: a status and, read afterwards,
each variable's value (`mip_var.X > 0.5` modelled as a Bool) and the
objective value `model.objVal`. -/
structure SolveResult where
  status : GRBStatus
  x : MIPVar → Bool
  objVal : ℚ

/-- The external solver capability: from the current model, the objective
expression and the sense, produce a solve result. -/
def Solver : Type := GModel → List (ℚ × MIPVar) → Sense → SolveResult

/-- The solver contract the code relies on: a proven-optimal result is a
feasible assignment for every constraint of the model it was asked to solve. -/
def SolverSound (solver : Solver) : Prop :=
  ∀ m obj sense, (solver m obj sense).status = GRBStatus.OPTIMAL →
    ∀ c ∈ m.constrs, Constr.holds (solver m obj sense).x c = true

/-- `PoolOptimiser.EPSILON = 1e-7`. -/
def EPSILON : ℚ := 1 / 10000000

/-- The exceptions the Python code can raise in `solve`. The intermediate-rank
failure path evaluates `str(solve_status)` with `solve_status` unbound, so
Python raises `NameError` there; the final-rank path raises
`OptimisationException`; `opt_criteria[-1]` on an empty list raises
`IndexError`. -/
inductive PyError where
  | optimisationException (msg : String)
  | nameError (nm : String)
  | indexError
deriving DecidableEq, Repr

/-- `_enforce_objective`: `z >= obj_val` when the criterion's sense string is
`'MAX'`, else `z <= obj_val`; appended to the model's constraints. -/
def enforce_objective (m : GModel) (z : List (ℚ × MIPVar)) (obj_val : ℚ)
    (sense : String) : GModel :=
  if sense == "MAX" then
    { m with constrs := m.constrs ++ [Constr.mk z Rel.ge obj_val] }
  else
    { m with constrs := m.constrs ++ [Constr.mk z Rel.le obj_val] }

/-- The intermediate-rank loop `for opt_criterion in opt_criteria[:-1]`:
optimise, require a proven optimum (otherwise the `raise` statement itself
fails with `NameError` on the unbound `solve_status`), then lock in the
achieved value with `_enforce_objective`. -/
def lexPhase (o : PoolOptimiser) (solver : Solver) :
    GModel → List OptCriterion → Except PyError GModel
  | m, [] => Except.ok m
  | m, c :: rest =>
    let z := objectiveTerms o c
    let res := solver m z (senseOf c)
    if res.status = GRBStatus.OPTIMAL then
      lexPhase o solver (enforce_objective m z res.objVal c.sense) rest
    else
      Except.error (PyError.nameError ("solve_status"))

/-- `_items_in_optimal_solution` applied to chains, cycles and altruists, and
flattened to `optimal_vars` in the code's order (chains, cycles, altruists). -/
def selectedVars (o : PoolOptimiser) (x : MIPVar → Bool) : List MIPVar :=
  ((List.range o.chains.length).filter (fun i => x (MIPVar.chainVar i))).map MIPVar.chainVar
  ++ ((List.range o.cycles.length).filter (fun i => x (MIPVar.cycleVar i))).map MIPVar.cycleVar
  ++ ((List.range o.pool.altruists.length).filter
      (fun i => x (MIPVar.altruistVar i))).map MIPVar.altruistVar

/-- The no-good cut posted after an emission:
`quicksum(optimal_vars) <= len(optimal_vars)-1`. -/
def noGoodCut (sel : List MIPVar) : Constr :=
  Constr.mk (sel.map (fun v => ((1 : ℚ), v))) Rel.le ((sel.length : ℚ) - 1)

/-- The mutable state of the enumeration loop: the (growing) model,
`best_objval_found`, `n_solutions`, and — as instrumentation of the emitted
stream — the accepted objective values and the emitted selections. -/
structure EnumSt where
  model : GModel
  best : ℚ
  nsols : Nat
  objvals : List ℚ
  sels : List (List MIPVar)
deriving DecidableEq

/-- Why the enumeration loop stopped. -/
inductive StopReason where
  | infeasible
  | degraded
  | empty
  | maxReached
deriving DecidableEq, Repr

/-- The outcome of one iteration of the `while True` loop. -/
inductive StepOut where
  | cont (s : EnumSt)
  | stop (r : StopReason) (s : EnumSt)
  | err (e : PyError)
deriving DecidableEq

/-- One iteration of the enumeration loop, exactly in the code's order:
solve; break on infeasible / inf-or-unbd; raise on any other non-optimal
status; break (degraded) when `objval + EPSILON < best_objval_found`; extract
and emit the selection, update `best_objval_found` and `n_solutions`; return
with `True` when the cap is hit; break when the selection is empty; otherwise
post the no-good cut and continue. -/
def enumStep (o : PoolOptimiser) (c : OptCriterion) (solver : Solver)
    (max_solutions : Int) (s : EnumSt) : StepOut :=
  let z := objectiveTerms o c
  let res := solver s.model z (senseOf c)
  if res.status = GRBStatus.INF_OR_UNBD ∨ res.status = GRBStatus.INFEASIBLE then
    StepOut.stop StopReason.infeasible s
  else if res.status ≠ GRBStatus.OPTIMAL then
    StepOut.err (PyError.optimisationException
      ("Solver status was " ++ toString res.status.code))
  else
    let objval := res.objVal
    if objval + EPSILON < s.best then
      StepOut.stop StopReason.degraded s
    else
      let sel := selectedVars o res.x
      let s' : EnumSt :=
        { model := s.model, best := objval, nsols := s.nsols + 1
          objvals := s.objvals ++ [objval], sels := s.sels ++ [sel] }
      if (s'.nsols : Int) = max_solutions then
        StepOut.stop StopReason.maxReached s'
      else if sel.length = 0 then
        StepOut.stop StopReason.empty s'
      else
        StepOut.cont
          { s' with model :=
              { s'.model with constrs := s'.model.constrs ++ [noGoodCut sel] } }

/-- The `while True` enumeration loop, with explicit fuel: `none` means the
fuel ran out before the loop reached a stop condition. -/
def enumLoop (o : PoolOptimiser) (c : OptCriterion) (solver : Solver)
    (max_solutions : Int) :
    Nat → EnumSt → Option (Except PyError (StopReason × EnumSt))
  | 0, _ => none
  | fuel + 1, s =>
    match enumStep o c solver max_solutions s with
    | StepOut.cont s' => enumLoop o c solver max_solutions fuel s'
    | StepOut.stop r s' => some (Except.ok (r, s'))
    | StepOut.err e => some (Except.error e)

/-- What `PoolOptimiser.solve` returns (`best_objval_found`, `n_solutions`,
reached-limit flag), together with the stop condition and the emitted stream
as instrumentation. -/
structure SolveOut where
  best_objval_found : ℚ
  n_solutions : Nat
  reached_max : Bool
  stop : StopReason
  objvals : List ℚ
  sels : List (List MIPVar)
deriving DecidableEq, Repr

/-- The final-rank enumeration phase of `solve`, starting from the model the
lexicographic phase produced: `n_solutions = 0`, `best_objval_found = -1`,
loop until a stop condition; `reached_max` is `True` exactly on the in-loop
cap return. -/
def solveFromModel (o : PoolOptimiser) (clast : OptCriterion) (solver : Solver)
    (max_solutions : Int) (fuel : Nat) (m1 : GModel) : Option (Except PyError SolveOut) :=
  match enumLoop o clast solver max_solutions fuel (EnumSt.mk m1 (-1) 0 [] []) with
  | none => none
  | some (Except.error e) => some (Except.error e)
  | some (Except.ok (r, s)) =>
    some (Except.ok
      (SolveOut.mk s.best s.nsols (decide (r = StopReason.maxReached)) r
        s.objvals s.sels))

/-- Propagation of the lexicographic phase's outcome into the enumeration
phase: an exception aborts `solve`, a model goes to the enumerator. -/
def afterLex (o : PoolOptimiser) (clast : OptCriterion) (solver : Solver)
    (max_solutions : Int) (fuel : Nat) :
    Except PyError GModel → Option (Except PyError SolveOut)
  | Except.error e => some (Except.error e)
  | Except.ok m1 => solveFromModel o clast solver max_solutions fuel m1

/-- `PoolOptimiser.solve(max_solutions)`. `g` is the module-level global
`opt_criteria` that the method body actually reads (both
`for opt_criterion in opt_criteria[:-1]` and `opt_criteria[-1]` name the
global, never `self.opt_criteria`). The model is built afresh, the
intermediate ranks are locked in, and the final rank is enumerated. An empty
global criteria list makes `opt_criteria[-1]` raise `IndexError`. -/
def solve (o : PoolOptimiser) (g : List OptCriterion) (solver : Solver)
    (max_solutions : Int) (fuel : Nat) : Option (Except PyError SolveOut) :=
  match g with
  | [] => some (Except.error PyError.indexError)
  | c0 :: cs =>
    afterLex o ((c0 :: cs).getLast (List.cons_ne_nil c0 cs)) solver max_solutions fuel
      (lexPhase o solver (create_vars_and_constraints o) (c0 :: cs).dropLast)

/-- A brute-force exact realisation of the solver capability, used to run the
embedded code on concrete pools: the set of assignments is the set of
sublists of the model's variables (the variables set to one). -/
def asgnOf (tv : List MIPVar) : MIPVar → Bool := fun v => tv.contains v

/-- All feasible 0/1 assignments of a model, as lists of true variables. -/
def feasibleSubsets (m : GModel) : List (List MIPVar) :=
  m.vars.sublists.filter (fun tv => m.constrs.all (fun c => Constr.holds (asgnOf tv) c))

/-- `betterEq sense obj a b` holds when `a` is at least as good as `b`. -/
def betterEq (sense : Sense) (obj : List (ℚ × MIPVar)) (a b : List MIPVar) : Bool :=
  match sense with
  | Sense.MAXIMIZE => decide (evalTerms (asgnOf b) obj ≤ evalTerms (asgnOf a) obj)
  | Sense.MINIMIZE => decide (evalTerms (asgnOf a) obj ≤ evalTerms (asgnOf b) obj)

/-- Pick a best feasible assignment by a left fold. -/
def pickBest (sense : Sense) (obj : List (ℚ × MIPVar))
    (f : List MIPVar) (fs : List (List MIPVar)) : List MIPVar :=
  fs.foldl (fun acc tv => if betterEq sense obj acc tv then acc else tv) f

/-- The brute-force exact solver: infeasible when no assignment satisfies the
constraints, otherwise a proven optimum with the achieved objective value. -/
def bruteSolver : Solver := fun m obj sense =>
  match feasibleSubsets m with
  | [] => SolveResult.mk GRBStatus.INFEASIBLE (fun _ => false) 0
  | f :: fs =>
    let b := pickBest sense obj f fs
    SolveResult.mk GRBStatus.OPTIMAL (asgnOf b) (evalTerms (asgnOf b) obj)

/-- The number of distinct feasible selections of a model whose objective
value lies within `EPSILON` of the best achievable one (the "tied-optimal"
selections, reading "the optimum" as the true optimum of the model the
enumeration starts from; maximising orientation). -/
def tiedOptimalCount (m : GModel) (obj : List (ℚ × MIPVar)) : Nat :=
  match feasibleSubsets m with
  | [] => 0
  | f :: fs =>
    let vstar := (fs.map (fun tv => evalTerms (asgnOf tv) obj)).foldl max
      (evalTerms (asgnOf f) obj)
    ((f :: fs).filter (fun tv => decide (vstar ≤ evalTerms (asgnOf tv) obj + EPSILON))).length

/-- Whether a chain uses a given patient (some pd_pair's patient is `p`). -/
def chainUsesPatient (c : Chain) (p : Nat) : Bool :=
  c.pd_pairs.any (fun pr => pr.patient == p)

/-- Whether a cycle uses a given patient. -/
def cycleUsesPatient (c : Cycle) (p : Nat) : Bool :=
  c.pd_pairs.any (fun pr => pr.patient == p)

/-- Whether a chain uses a given paired donor. -/
def chainUsesDonor (c : Chain) (d : Donor) : Bool :=
  c.pd_pairs.any (fun pr => pr.donor == d)

/-- Whether a cycle uses a given paired donor. -/
def cycleUsesDonor (c : Cycle) (d : Donor) : Bool :=
  c.pd_pairs.any (fun pr => pr.donor == d)

/-- How many selected candidates (chains or cycles) of an emitted selection
use patient `p`. -/
def selectedItemsWithPatient (o : PoolOptimiser) (sel : List MIPVar) (p : Nat) : Nat :=
  (o.chains.enum.filter
    (fun ic => sel.contains (MIPVar.chainVar ic.1) && chainUsesPatient ic.2 p)).length
  + (o.cycles.enum.filter
    (fun ic => sel.contains (MIPVar.cycleVar ic.1) && cycleUsesPatient ic.2 p)).length

/-- How many selected candidates of an emitted selection use donor `d`. -/
def selectedItemsWithDonor (o : PoolOptimiser) (sel : List MIPVar) (d : Donor) : Nat :=
  (o.chains.enum.filter
    (fun ic => sel.contains (MIPVar.chainVar ic.1) && chainUsesDonor ic.2 d)).length
  + (o.cycles.enum.filter
    (fun ic => sel.contains (MIPVar.cycleVar ic.1) && cycleUsesDonor ic.2 d)).length

/-- How many selected chains of an emitted selection are initiated by
altruist `a`. -/
def selectedChainsFromAltruist (o : PoolOptimiser) (sel : List MIPVar) (a : Altruist) : Nat :=
  (o.chains.enum.filter
    (fun ic => ic.2.altruist_nhs_id == a.nhs_id && sel.contains (MIPVar.chainVar ic.1))).length

/-- A zero-valued maximising criterion (used for concrete runs). -/
def czero : OptCriterion :=
  OptCriterion.mk "MAX" (fun _ => 0) (fun _ => 0) (fun _ => 0)

/-- The optimiser for the empty pool with no candidates. -/
def egEmptyO : PoolOptimiser := PoolOptimiser.mk (Pool.mk [] [] []) [] [] []

/-- A donor linked to the single patient `i`. -/
def egDonor (i : Nat) : Donor := Donor.mk (100 + i) [i]

/-- The pair of patient `i` with its donor. -/
def egPair (i : Nat) : PDPair := PDPair.mk i (egDonor i)

/-- A one-pair chain for patient `i`, initiated by altruist 0. -/
def egChain (i : Nat) : Chain := Chain.mk 0 [egPair i]

/-- The altruist with id 0. -/
def egAlt : Altruist := Altruist.mk 0

/-- A minimising criterion for the sense counterexample: chain for patient 1
is worth 0, chain for patient 2 is worth 1, staying idle is worth 2. -/
def c3crit : OptCriterion :=
  OptCriterion.mk "MIN" (fun _ => 0)
    (fun ch => match ch.pd_pairs with
      | [pr] => if pr.patient = 2 then 1 else 0
      | _ => 0)
    (fun _ => 2)

/-- Pool with one altruist that can start a chain to patient 1 or to
patient 2, or stay idle. -/
def c3opt : PoolOptimiser :=
  PoolOptimiser.mk (Pool.mk [1, 2] [egDonor 1, egDonor 2] [egAlt]) [] []
    [egChain 1, egChain 2]

/-- A solver oracle that always reports infeasibility (legitimate behaviour
of the external capability on an over-constrained model). -/
def infSolver : Solver :=
  fun _ _ _ => SolveResult.mk GRBStatus.INFEASIBLE (fun _ => false) 0

/-- A maximising criterion that values any chain at 1. -/
def cchain1 : OptCriterion :=
  OptCriterion.mk "MAX" (fun _ => 0) (fun _ => 1) (fun _ => 0)

/-- Pool for the global-criteria divergence: one altruist that can start one
chain or stay idle. -/
def c5opt : PoolOptimiser :=
  PoolOptimiser.mk (Pool.mk [1] [egDonor 1] [egAlt]) [czero] [] [egChain 1]

/-- Pool with one cycle over a single patient whose donor is linked to that
one patient only. -/
def c6opt : PoolOptimiser :=
  PoolOptimiser.mk (Pool.mk [1] [egDonor 1] []) [] [Cycle.mk [egPair 1]] []

/-- The drifting maximising criterion: chains for patients 1, 2, 3 are worth
`1.8e-7`, `0.9e-7`, `0`, and staying idle is worth `-0.9e-7` — each value is
within `EPSILON` of the previous one but only the first two are within
`EPSILON` of the optimum. -/
def c8crit : OptCriterion :=
  OptCriterion.mk "MAX" (fun _ => 0)
    (fun ch => match ch.pd_pairs with
      | [pr] =>
        if pr.patient = 1 then 18/100000000
        else if pr.patient = 2 then 9/100000000
        else 0
      | _ => 0)
    (fun _ => (-9)/100000000)

/-- Pool with one altruist and three alternative chains. -/
def c8opt : PoolOptimiser :=
  PoolOptimiser.mk
    (Pool.mk [1, 2, 3] [egDonor 1, egDonor 2, egDonor 3] [egAlt]) [] []
    [egChain 1, egChain 2, egChain 3]

/-- Pool with one altruist and no chains at all. -/
def c10opt : PoolOptimiser := PoolOptimiser.mk (Pool.mk [] [] [egAlt]) [] [] []

/-- A maximising criterion under which even the best outcome (the idle
altruist) scores `-2`, below the `-1` sentinel by more than `EPSILON`. -/
def c10crit : OptCriterion :=
  OptCriterion.mk "MAX" (fun _ => 0) (fun _ => 0) (fun _ => -2)

/-- Pool for the invariants witness: one patient, its donor, one altruist and
one chain serving that patient. -/
def c1opt : PoolOptimiser :=
  PoolOptimiser.mk (Pool.mk [1] [egDonor 1] [egAlt]) [] [] [egChain 1]

/-- A variable index lies within the candidate lists of the optimiser (every
variable the model builder and the objective mention is of this shape). -/
def varBound (o : PoolOptimiser) (v : MIPVar) : Prop :=
  match v with
  | MIPVar.chainVar i => i < o.chains.length
  | MIPVar.cycleVar i => i < o.cycles.length
  | MIPVar.altruistVar i => i < o.pool.altruists.length

/-- Every constraint of the model mentions only variables of the optimiser's
candidate lists. -/
def ModelVarsBounded (o : PoolOptimiser) (m : GModel) : Prop :=
  ∀ cst ∈ m.constrs, ∀ t ∈ cst.terms, varBound o t.2

/-- The state right after an emission: `best_objval_found := objval`,
`n_solutions += 1`, the objective value and the selection appended to the
emitted stream (the model unchanged; the cut, if any, is added afterwards). -/
def emitState (o : PoolOptimiser) (c : OptCriterion) (solver : Solver) (s : EnumSt) : EnumSt :=
  EnumSt.mk s.model (solver s.model (objectiveTerms o c) (senseOf c)).objVal (s.nsols + 1)
    (s.objvals ++ [(solver s.model (objectiveTerms o c) (senseOf c)).objVal])
    (s.sels ++ [selectedVars o (solver s.model (objectiveTerms o c) (senseOf c)).x])

lemma chainVar_injective : Function.Injective MIPVar.chainVar := by
  intro a b h
  injection h

lemma cycleVar_injective : Function.Injective MIPVar.cycleVar := by
  intro a b h
  injection h

lemma altruistVar_injective : Function.Injective MIPVar.altruistVar := by
  intro a b h
  injection h

lemma enumLoop_zero (o : PoolOptimiser) (c : OptCriterion) (solver : Solver) (ms : Int)
    (s : EnumSt) : enumLoop o c solver ms 0 s = none := rfl

lemma enumLoop_succ (o : PoolOptimiser) (c : OptCriterion) (solver : Solver) (ms : Int)
    (fuel : Nat) (s : EnumSt) :
    enumLoop o c solver ms (fuel + 1) s
      = match enumStep o c solver ms s with
        | StepOut.cont s' => enumLoop o c solver ms fuel s'
        | StepOut.stop r s' => some (Except.ok (r, s'))
        | StepOut.err e => some (Except.error e) := rfl

lemma solve_nil (o : PoolOptimiser) (solver : Solver) (ms : Int) (fuel : Nat) :
    solve o [] solver ms fuel = some (Except.error PyError.indexError) := rfl

lemma solve_cons (o : PoolOptimiser) (c0 : OptCriterion) (cs : List OptCriterion)
    (solver : Solver) (ms : Int) (fuel : Nat) :
    solve o (c0 :: cs) solver ms fuel
      = afterLex o ((c0 :: cs).getLast (List.cons_ne_nil c0 cs)) solver ms fuel
          (lexPhase o solver (create_vars_and_constraints o) (c0 :: cs).dropLast) := rfl

lemma afterLex_error (o : PoolOptimiser) (clast : OptCriterion) (solver : Solver)
    (ms : Int) (fuel : Nat) (e : PyError) :
    afterLex o clast solver ms fuel (Except.error e) = some (Except.error e) := rfl

lemma afterLex_ok (o : PoolOptimiser) (clast : OptCriterion) (solver : Solver)
    (ms : Int) (fuel : Nat) (m1 : GModel) :
    afterLex o clast solver ms fuel (Except.ok m1)
      = solveFromModel o clast solver ms fuel m1 := rfl

lemma lexPhase_nil (o : PoolOptimiser) (solver : Solver) (m : GModel) :
    lexPhase o solver m [] = Except.ok m := rfl

lemma solveFromModel_out (o : PoolOptimiser) (clast : OptCriterion) (solver : Solver)
    (ms : Int) (fuel : Nat) (m1 : GModel) (r : StopReason) (s : EnumSt)
    (h : enumLoop o clast solver ms fuel (EnumSt.mk m1 (-1) 0 [] [])
      = some (Except.ok (r, s))) :
    solveFromModel o clast solver ms fuel m1
      = some (Except.ok
          (SolveOut.mk s.best s.nsols (decide (r = StopReason.maxReached)) r
            s.objvals s.sels)) := by
  simp only [solveFromModel]
  rw [h]

lemma solveFromModel_none (o : PoolOptimiser) (clast : OptCriterion) (solver : Solver)
    (ms : Int) (fuel : Nat) (m1 : GModel)
    (h : enumLoop o clast solver ms fuel (EnumSt.mk m1 (-1) 0 [] []) = none) :
    solveFromModel o clast solver ms fuel m1 = none := by
  simp only [solveFromModel]
  rw [h]

lemma solveFromModel_error (o : PoolOptimiser) (clast : OptCriterion) (solver : Solver)
    (ms : Int) (fuel : Nat) (m1 : GModel) (e : PyError)
    (h : enumLoop o clast solver ms fuel (EnumSt.mk m1 (-1) 0 [] [])
      = some (Except.error e)) :
    solveFromModel o clast solver ms fuel m1 = some (Except.error e) := by
  simp only [solveFromModel]
  rw [h]

lemma enumLoop_succ_cont (o : PoolOptimiser) (c : OptCriterion) (solver : Solver)
    (ms : Int) (fuel : Nat) (s s' : EnumSt)
    (h : enumStep o c solver ms s = StepOut.cont s') :
    enumLoop o c solver ms (fuel + 1) s = enumLoop o c solver ms fuel s' := by
  rw [enumLoop_succ, h]

lemma enumLoop_succ_stop (o : PoolOptimiser) (c : OptCriterion) (solver : Solver)
    (ms : Int) (fuel : Nat) (s s' : EnumSt) (r : StopReason)
    (h : enumStep o c solver ms s = StepOut.stop r s') :
    enumLoop o c solver ms (fuel + 1) s = some (Except.ok (r, s')) := by
  rw [enumLoop_succ, h]

lemma enumLoop_succ_err (o : PoolOptimiser) (c : OptCriterion) (solver : Solver)
    (ms : Int) (fuel : Nat) (s : EnumSt) (e : PyError)
    (h : enumStep o c solver ms s = StepOut.err e) :
    enumLoop o c solver ms (fuel + 1) s = some (Except.error e) := by
  rw [enumLoop_succ, h]

lemma lexPhase_cons (o : PoolOptimiser) (solver : Solver) (m : GModel)
    (c : OptCriterion) (rest : List OptCriterion) :
    lexPhase o solver m (c :: rest)
      = (if (solver m (objectiveTerms o c) (senseOf c)).status = GRBStatus.OPTIMAL then
          lexPhase o solver
            (enforce_objective m (objectiveTerms o c)
              (solver m (objectiveTerms o c) (senseOf c)).objVal c.sense) rest
        else Except.error (PyError.nameError ("solve_status"))) := rfl

lemma enumStep_stop_infeasible (o : PoolOptimiser) (c : OptCriterion) (solver : Solver)
    (ms : Int) (s : EnumSt)
    (h : (solver s.model (objectiveTerms o c) (senseOf c)).status = GRBStatus.INF_OR_UNBD
       ∨ (solver s.model (objectiveTerms o c) (senseOf c)).status = GRBStatus.INFEASIBLE) :
    enumStep o c solver ms s = StepOut.stop StopReason.infeasible s := by
  simp only [enumStep]
  rw [if_pos h]

lemma not_inf_of_optimal {st : GRBStatus} (hopt : st = GRBStatus.OPTIMAL) :
    ¬(st = GRBStatus.INF_OR_UNBD ∨ st = GRBStatus.INFEASIBLE) := by
  rw [hopt]
  rintro (h | h) <;> exact GRBStatus.noConfusion h

lemma enumStep_raise (o : PoolOptimiser) (c : OptCriterion) (solver : Solver)
    (ms : Int) (s : EnumSt)
    (h1 : ¬((solver s.model (objectiveTerms o c) (senseOf c)).status = GRBStatus.INF_OR_UNBD
       ∨ (solver s.model (objectiveTerms o c) (senseOf c)).status = GRBStatus.INFEASIBLE))
    (h2 : (solver s.model (objectiveTerms o c) (senseOf c)).status ≠ GRBStatus.OPTIMAL) :
    enumStep o c solver ms s
      = StepOut.err (PyError.optimisationException
          ("Solver status was "
            ++ toString (solver s.model (objectiveTerms o c) (senseOf c)).status.code)) := by
  simp only [enumStep]
  rw [if_neg h1, if_pos h2]

lemma enumStep_stop_degraded (o : PoolOptimiser) (c : OptCriterion) (solver : Solver)
    (ms : Int) (s : EnumSt)
    (hopt : (solver s.model (objectiveTerms o c) (senseOf c)).status = GRBStatus.OPTIMAL)
    (htol : (solver s.model (objectiveTerms o c) (senseOf c)).objVal + EPSILON < s.best) :
    enumStep o c solver ms s = StepOut.stop StopReason.degraded s := by
  simp only [enumStep]
  rw [if_neg (not_inf_of_optimal hopt), if_neg (not_not_intro hopt), if_pos htol]

lemma enumStep_emit (o : PoolOptimiser) (c : OptCriterion) (solver : Solver)
    (ms : Int) (s : EnumSt)
    (hopt : (solver s.model (objectiveTerms o c) (senseOf c)).status = GRBStatus.OPTIMAL)
    (htol : ¬((solver s.model (objectiveTerms o c) (senseOf c)).objVal + EPSILON < s.best)) :
    enumStep o c solver ms s
      = (if ((s.nsols + 1 : ℕ) : ℤ) = ms then
          StepOut.stop StopReason.maxReached (emitState o c solver s)
        else if (selectedVars o (solver s.model (objectiveTerms o c) (senseOf c)).x).length = 0
        then StepOut.stop StopReason.empty (emitState o c solver s)
        else StepOut.cont
          (EnumSt.mk
            (GModel.mk s.model.vars
              (s.model.constrs
                ++ [noGoodCut
                  (selectedVars o (solver s.model (objectiveTerms o c) (senseOf c)).x)]))
            (emitState o c solver s).best (emitState o c solver s).nsols
            (emitState o c solver s).objvals (emitState o c solver s).sels)) := by
  simp only [enumStep, emitState]
  rw [if_neg (not_inf_of_optimal hopt), if_neg (not_not_intro hopt), if_neg htol]

lemma createVars_nodup (o : PoolOptimiser) :
    (create_vars_and_constraints o).vars.Nodup := by
  simp only [create_vars_and_constraints]
  refine List.Nodup.append (List.Nodup.append ?_ ?_ ?_) ?_ ?_
  · exact (List.nodup_range _).map chainVar_injective
  · exact (List.nodup_range _).map cycleVar_injective
  · intro v hv hv'
    simp only [List.mem_map, List.mem_range] at hv hv'
    obtain ⟨i, _, rfl⟩ := hv
    obtain ⟨j, _, h⟩ := hv'
    exact MIPVar.noConfusion h
  · exact (List.nodup_range _).map altruistVar_injective
  · intro v hv hv'
    simp only [List.mem_append, List.mem_map, List.mem_range] at hv hv'
    obtain ⟨j, _, h⟩ := hv'
    rcases hv with ⟨i, _, rfl⟩ | ⟨i, _, rfl⟩ <;> exact MIPVar.noConfusion h

/-- C3 counterexample: a minimising final criterion whose successive optima
are 0, 1, 2. The second accepted value (1) is larger than the best value
seen so far (0) by more than `EPSILON`, which per the claim should trigger
degradation termination in the minimising sense; the code instead accepts
it (and the next one), emits three solutions and only stops on
infeasibility. -/
theorem C3_counterexample :
    senseOf c3crit = Sense.MINIMIZE
    ∧ ((0 : ℚ) + EPSILON < 1)
    ∧ solve c3opt [c3crit] bruteSolver 100 4
        = some (Except.ok (SolveOut.mk 2 3 false StopReason.infeasible [0, 1, 2]
            [[MIPVar.chainVar 0], [MIPVar.chainVar 1], [MIPVar.altruistVar 0]])) :=
  ⟨rfl, by decide, by decide⟩

/-- C3 (amended): the enumeration loop stops with degradation termination
exactly when the newly solved status is a proven optimum and the new
objective value is smaller than the best value seen so far by more than
`EPSILON` — the same maximising-orientation test regardless of the
criterion's declared sense. -/
theorem C3_degraded_iff (o : PoolOptimiser) (c : OptCriterion) (solver : Solver)
    (ms : Int) (s : EnumSt) :
    enumStep o c solver ms s = StepOut.stop StopReason.degraded s
      ↔ ((solver s.model (objectiveTerms o c) (senseOf c)).status = GRBStatus.OPTIMAL
         ∧ (solver s.model (objectiveTerms o c) (senseOf c)).objVal + EPSILON < s.best) := by
  simp only [enumStep]
  split_ifs with h1 h2 h3 h4 h5
  · rcases h1 with h | h <;> simp [h]
  · simp [h2]
  · simp [not_ne_iff.mp h2, h3]
  · simp [h3]
  · simp [h3]
  · simp [h3]

/-- C4: at an intermediate lexicographic rank, a non-optimal solve status
makes the code fail — but with a `NameError` (the `raise` line interpolates
the unbound name `solve_status`; the binding there is `status`), not with
the `OptimisationException` the claim (and the spec's OptimizationFailure)
describes. -/
theorem C4_intermediate_raises_nameerror :
    solve egEmptyO [czero, czero] infSolver 100 1
      = some (Except.error (PyError.nameError ("solve_status")))
    ∧ (∀ msg : String,
        PyError.nameError ("solve_status") ≠ PyError.optimisationException msg) :=
  ⟨by decide, fun _ h => PyError.noConfusion h⟩

/-- C6 counterexample: a pool whose only cycle uses the one patient of a
singly-linked donor. The claim says a paired donor is given its at-most-one
constraint only when it has more than one linked patient, but the code posts
a constraint row for every paired donor: here the donor's posted row is the
vacuous `0 <= 1` (second entry), even though it has exactly one patient. -/
theorem C6_counterexample :
    (create_vars_and_constraints c6opt).constrs
      = [Constr.mk [((1 : ℚ), MIPVar.cycleVar 0)] Rel.le 1, Constr.mk [] Rel.le 1]
    ∧ (egDonor 1).paired_patients.length = 1 :=
  ⟨by decide, rfl⟩

/-- C6 (amended): model construction creates one binary variable per chain,
cycle and altruist (all distinct); posts `sum(mip_vars) <= 1` for every
patient and for every paired donor, where a donor's accumulated variable
list is empty — so its posted row is vacuous — whenever it is linked to at
most one patient; and posts `sum(mip_vars) == 1` for every altruist, the sum
running over its own unused variable and the chains it initiates. The
accumulators are rebuilt from scratch on every model construction. -/
theorem C6_model_construction (o : PoolOptimiser) :
    ((create_vars_and_constraints o).vars.length
        = o.chains.length + o.cycles.length + o.pool.altruists.length)
    ∧ (create_vars_and_constraints o).vars.Nodup
    ∧ (∀ p ∈ o.pool.patients,
        Constr.mk ((patientMipVars o p).map (fun v => ((1 : ℚ), v))) Rel.le 1
          ∈ (create_vars_and_constraints o).constrs)
    ∧ (∀ d ∈ o.pool.paired_donors,
        Constr.mk ((donorMipVars o d).map (fun v => ((1 : ℚ), v))) Rel.le 1
          ∈ (create_vars_and_constraints o).constrs
        ∧ (d.paired_patients.length ≤ 1 → donorMipVars o d = []))
    ∧ (∀ ja ∈ o.pool.altruists.enum,
        Constr.mk ((altruistMipVars o ja.1 ja.2).map (fun v => ((1 : ℚ), v))) Rel.eq 1
          ∈ (create_vars_and_constraints o).constrs) := by
  refine ⟨?_, ?_, ?_, ?_, ?_⟩
  · simp [create_vars_and_constraints, Nat.add_assoc]
  · exact createVars_nodup o
  · intro p hp
    exact List.mem_append_left _ (List.mem_append_left _ (List.mem_map_of_mem _ hp))
  · intro d hd
    constructor
    · exact List.mem_append_left _ (List.mem_append_right _ (List.mem_map_of_mem _ hd))
    · intro hlen
      simp only [donorMipVars, List.append_eq_nil, List.flatMap_eq_nil_iff]
      constructor <;>
      · intro ic _
        rw [List.map_eq_nil_iff, List.filter_eq_nil_iff]
        intro pr _ hpr
        simp only [Bool.and_eq_true, beq_iff_eq, decide_eq_true_eq] at hpr
        rw [hpr.1] at hpr
        omega
  · intro ja hja
    exact List.mem_append_right _ (List.mem_map_of_mem _ hja)

/-- C9 counterexample: on the empty pool with `max_solutions = 1` the cap
check fires before the empty-selection check, so `solve` returns
`limit_reached = true` (and stop reason max-reached), not the
`limit_reached = false` the claim states. -/
theorem C9_counterexample :
    solve egEmptyO [czero] bruteSolver 1 1
      = some (Except.ok (SolveOut.mk 0 1 true StopReason.maxReached [0] [[]])) := by
  decide

/-- C9 (amended): for the empty pool and any final criterion, provided
`max_solutions ≠ 1`, the first final-rank solve yields objective 0 with an
empty selection, the loop stops on the empty-selection condition, and solve
returns one solution with `limit_reached = false`. (With `max_solutions = 1`
the cap return fires first and reports `limit_reached = true`.) -/
theorem C9_empty_pool (c : OptCriterion) (ms : Int) (fuel : Nat)
    (hms : ms ≠ 1) (hf : 1 ≤ fuel) :
    solve egEmptyO [c] bruteSolver ms fuel
      = some (Except.ok (SolveOut.mk 0 1 false StopReason.empty [0] [[]])) := by
  obtain ⟨f, rfl⟩ : ∃ f, fuel = f + 1 := ⟨fuel - 1, by omega⟩
  have hres : bruteSolver (GModel.mk [] []) (objectiveTerms egEmptyO c) (senseOf c)
      = SolveResult.mk GRBStatus.OPTIMAL (asgnOf []) 0 := rfl
  have hsel : selectedVars egEmptyO (asgnOf []) = [] := rfl
  have hstep := enumStep_emit egEmptyO c bruteSolver ms
    (EnumSt.mk (GModel.mk [] []) (-1) 0 [] [])
    (by rw [hres]) (by rw [hres]; decide)
  rw [if_neg (show ¬(((0 + 1 : ℕ) : ℤ) = ms) by omega)] at hstep
  rw [hres, hsel] at hstep
  rw [if_pos (show ([] : List MIPVar).length = 0 from rfl)] at hstep
  have hem : emitState egEmptyO c bruteSolver (EnumSt.mk (GModel.mk [] []) (-1) 0 [] [])
      = EnumSt.mk (GModel.mk [] []) 0 1 [0] [[]] := by
    simp only [emitState]
    rw [hres, hsel]
    rfl
  rw [hem] at hstep
  rw [solve_cons, List.dropLast_single,
    show create_vars_and_constraints egEmptyO = GModel.mk [] [] from rfl,
    lexPhase_nil, afterLex_ok, List.getLast_singleton,
    solveFromModel_out egEmptyO c bruteSolver ms (f + 1) (GModel.mk [] [])
      StopReason.empty (EnumSt.mk (GModel.mk [] []) 0 1 [0] [[]])
      (enumLoop_succ_stop egEmptyO c bruteSolver ms f _ _ _ hstep)]
  rfl

/-- C9 witness: the amended empty-pool theorem applied at `max_solutions = 2`,
fuel 1. -/
theorem C9_empty_pool_witness :
    ((2 : Int) ≠ 1) ∧ (1 ≤ 1)
    ∧ solve egEmptyO [czero] bruteSolver 2 1
        = some (Except.ok (SolveOut.mk 0 1 false StopReason.empty [0] [[]])) :=
  ⟨by decide, le_refl 1, C9_empty_pool czero 2 1 (by decide) (le_refl 1)⟩

/-- C10: `best_objval_found` starts at the sentinel `-1`, so when the
intermediate phase succeeds and the first final-rank solve is a proven
optimum whose objective value is below `-1` by more than `EPSILON`, the
first tolerance check fires immediately: no selection is emitted and solve
returns best objective `-1`, zero solutions, `limit_reached = false`. -/
theorem C10_sentinel (o : PoolOptimiser) (g : List OptCriterion) (solver : Solver)
    (ms : Int) (fuel : Nat) (m1 : GModel) (hg : g ≠ [])
    (h1 : lexPhase o solver (create_vars_and_constraints o) g.dropLast = Except.ok m1)
    (h2 : (solver m1 (objectiveTerms o (g.getLast hg)) (senseOf (g.getLast hg))).status
        = GRBStatus.OPTIMAL)
    (h3 : (solver m1 (objectiveTerms o (g.getLast hg)) (senseOf (g.getLast hg))).objVal
        + EPSILON < -1)
    (hf : 1 ≤ fuel) :
    solve o g solver ms fuel
      = some (Except.ok (SolveOut.mk (-1) 0 false StopReason.degraded [] [])) := by
  obtain ⟨f, rfl⟩ : ∃ f, fuel = f + 1 := ⟨fuel - 1, by omega⟩
  cases g with
  | nil => exact absurd rfl hg
  | cons c0 cs =>
    have hL : (c0 :: cs).getLast hg = (c0 :: cs).getLast (List.cons_ne_nil c0 cs) := rfl
    rw [hL] at h2 h3
    have hstep := enumStep_stop_degraded o ((c0 :: cs).getLast (List.cons_ne_nil c0 cs))
      solver ms (EnumSt.mk m1 (-1) 0 [] []) h2 h3
    rw [solve_cons, h1, afterLex_ok,
      solveFromModel_out o _ solver ms (f + 1) m1 StopReason.degraded
        (EnumSt.mk m1 (-1) 0 [] [])
        (enumLoop_succ_stop o _ solver ms f _ _ _ hstep)]
    rfl

/-- C10 witness: a pool whose single altruist scores `-2` even at the
optimum: solve returns `(-1, 0, false)` and emits nothing. -/
theorem C10_sentinel_witness :
    lexPhase c10opt bruteSolver (create_vars_and_constraints c10opt) ([c10crit] : List OptCriterion).dropLast
        = Except.ok (create_vars_and_constraints c10opt)
    ∧ (bruteSolver (create_vars_and_constraints c10opt)
        (objectiveTerms c10opt (([c10crit] : List OptCriterion).getLast (List.cons_ne_nil c10crit [])))
        (senseOf (([c10crit] : List OptCriterion).getLast (List.cons_ne_nil c10crit [])))).status
        = GRBStatus.OPTIMAL
    ∧ (bruteSolver (create_vars_and_constraints c10opt)
        (objectiveTerms c10opt (([c10crit] : List OptCriterion).getLast (List.cons_ne_nil c10crit [])))
        (senseOf (([c10crit] : List OptCriterion).getLast (List.cons_ne_nil c10crit [])))).objVal
        + EPSILON < -1
    ∧ solve c10opt [c10crit] bruteSolver 100 1
        = some (Except.ok (SolveOut.mk (-1) 0 false StopReason.degraded [] [])) :=
  ⟨rfl, by decide, by decide,
    C10_sentinel c10opt [c10crit] bruteSolver 100 1 (create_vars_and_constraints c10opt)
      (List.cons_ne_nil c10crit []) rfl (by decide) (by decide) (le_refl 1)⟩

/-- C6 witness: the amended construction theorem evaluated on the concrete
one-cycle pool. -/
theorem C6_model_construction_witness :
    (1 : Nat) ∈ c6opt.pool.patients
    ∧ egDonor 1 ∈ c6opt.pool.paired_donors
    ∧ Constr.mk ((patientMipVars c6opt 1).map (fun v => ((1 : ℚ), v))) Rel.le 1
        ∈ (create_vars_and_constraints c6opt).constrs
    ∧ donorMipVars c6opt (egDonor 1) = [] :=
  ⟨by decide, by decide,
    (C6_model_construction c6opt).2.2.1 1 (by decide),
    ((C6_model_construction c6opt).2.2.2.1 (egDonor 1) (by decide)).2 (by decide)⟩

lemma enumStep_oc (p : Pool) (cs1 cs2 : List OptCriterion) (cy : List Cycle)
    (ch : List Chain) (c : OptCriterion) (solver : Solver) (ms : Int) (s : EnumSt) :
    enumStep (PoolOptimiser.mk p cs1 cy ch) c solver ms s
      = enumStep (PoolOptimiser.mk p cs2 cy ch) c solver ms s := rfl

lemma enumLoop_oc (p : Pool) (cs1 cs2 : List OptCriterion) (cy : List Cycle)
    (ch : List Chain) (c : OptCriterion) (solver : Solver) (ms : Int) :
    ∀ (fuel : Nat) (s : EnumSt),
    enumLoop (PoolOptimiser.mk p cs1 cy ch) c solver ms fuel s
      = enumLoop (PoolOptimiser.mk p cs2 cy ch) c solver ms fuel s := by
  intro fuel
  induction fuel with
  | zero => intro s; rfl
  | succ f ih =>
    intro s
    rw [enumLoop_succ, enumLoop_succ, enumStep_oc p cs1 cs2]
    cases enumStep (PoolOptimiser.mk p cs2 cy ch) c solver ms s with
    | cont s' => exact ih s'
    | stop r s' => rfl
    | err e => rfl

lemma lexPhase_oc (p : Pool) (cs1 cs2 : List OptCriterion) (cy : List Cycle)
    (ch : List Chain) (solver : Solver) :
    ∀ (cs : List OptCriterion) (m : GModel),
    lexPhase (PoolOptimiser.mk p cs1 cy ch) solver m cs
      = lexPhase (PoolOptimiser.mk p cs2 cy ch) solver m cs := by
  intro cs
  induction cs with
  | nil => intro m; rfl
  | cons c rest ih =>
    intro m
    rw [lexPhase_cons, lexPhase_cons,
      show objectiveTerms (PoolOptimiser.mk p cs1 cy ch) c
        = objectiveTerms (PoolOptimiser.mk p cs2 cy ch) c from rfl]
    split_ifs with h
    · exact ih _
    · rfl

/-- C5: contrary to the claim, `solve` does not read the criteria sequence
stored at construction: its result is invariant under replacing the
`opt_criteria` field (first conjunct — the field is a dead store), and on
the same constructed optimiser two different values of the module-level
global `opt_criteria` produce different results (second conjunct), so the
result depends on state outside the constructed optimiser. -/
theorem C5_solve_ignores_stored_criteria :
    (∀ (p : Pool) (cs1 cs2 : List OptCriterion) (cy : List Cycle) (ch : List Chain)
      (g : List OptCriterion) (solver : Solver) (ms : Int) (fuel : Nat),
      solve (PoolOptimiser.mk p cs1 cy ch) g solver ms fuel
        = solve (PoolOptimiser.mk p cs2 cy ch) g solver ms fuel)
    ∧ solve c5opt [cchain1] bruteSolver 100 5 ≠ solve c5opt [czero] bruteSolver 100 5 := by
  constructor
  · intro p cs1 cs2 cy ch g solver ms fuel
    cases g with
    | nil => rfl
    | cons c0 cs =>
      rw [solve_cons, solve_cons,
        show create_vars_and_constraints (PoolOptimiser.mk p cs1 cy ch)
          = create_vars_and_constraints (PoolOptimiser.mk p cs2 cy ch) from rfl,
        lexPhase_oc p cs1 cs2]
      cases hlex : lexPhase (PoolOptimiser.mk p cs2 cy ch) solver
          (create_vars_and_constraints (PoolOptimiser.mk p cs2 cy ch)) (c0 :: cs).dropLast with
      | error e => rw [afterLex_error, afterLex_error]
      | ok m1 =>
        rw [afterLex_ok, afterLex_ok]
        simp only [solveFromModel]
        rw [enumLoop_oc p cs1 cs2]
  · decide


lemma enumStep_cont_inv (o : PoolOptimiser) (c : OptCriterion) (solver : Solver)
    (ms : Int) (s s1 : EnumSt)
    (h : enumStep o c solver ms s = StepOut.cont s1) :
    s1.model.vars = s.model.vars
    ∧ s1.model.constrs = s.model.constrs
        ++ [noGoodCut (selectedVars o (solver s.model (objectiveTerms o c) (senseOf c)).x)]
    ∧ s1.best = (solver s.model (objectiveTerms o c) (senseOf c)).objVal
    ∧ s1.nsols = s.nsols + 1
    ∧ s1.objvals = s.objvals ++ [(solver s.model (objectiveTerms o c) (senseOf c)).objVal]
    ∧ s1.sels = s.sels ++ [selectedVars o (solver s.model (objectiveTerms o c) (senseOf c)).x]
    ∧ (solver s.model (objectiveTerms o c) (senseOf c)).status = GRBStatus.OPTIMAL
    ∧ ¬((solver s.model (objectiveTerms o c) (senseOf c)).objVal + EPSILON < s.best)
    ∧ selectedVars o (solver s.model (objectiveTerms o c) (senseOf c)).x ≠ [] := by
  by_cases hb1 : (solver s.model (objectiveTerms o c) (senseOf c)).status = GRBStatus.INF_OR_UNBD
      ∨ (solver s.model (objectiveTerms o c) (senseOf c)).status = GRBStatus.INFEASIBLE
  · rw [enumStep_stop_infeasible o c solver ms s hb1] at h
    exact StepOut.noConfusion h
  · by_cases hb2 : (solver s.model (objectiveTerms o c) (senseOf c)).status = GRBStatus.OPTIMAL
    · by_cases hb3 : (solver s.model (objectiveTerms o c) (senseOf c)).objVal + EPSILON < s.best
      · rw [enumStep_stop_degraded o c solver ms s hb2 hb3] at h
        exact StepOut.noConfusion h
      · rw [enumStep_emit o c solver ms s hb2 hb3] at h
        split_ifs at h with h4 h5
        all_goals
          first
          | exact StepOut.noConfusion h
          | (injection h with h6
             subst h6
             exact ⟨rfl, rfl, rfl, rfl, rfl, rfl, hb2, hb3,
               fun hn => h5 (by rw [hn]; rfl)⟩)
    · rw [enumStep_raise o c solver ms s hb1 hb2] at h
      exact StepOut.noConfusion h

lemma enumStep_stop_inv (o : PoolOptimiser) (c : OptCriterion) (solver : Solver)
    (ms : Int) (s : EnumSt) (r : StopReason) (s1 : EnumSt)
    (h : enumStep o c solver ms s = StepOut.stop r s1) :
    s1 = s
    ∨ ((solver s.model (objectiveTerms o c) (senseOf c)).status = GRBStatus.OPTIMAL
       ∧ ¬((solver s.model (objectiveTerms o c) (senseOf c)).objVal + EPSILON < s.best)
       ∧ s1 = emitState o c solver s) := by
  by_cases hb1 : (solver s.model (objectiveTerms o c) (senseOf c)).status = GRBStatus.INF_OR_UNBD
      ∨ (solver s.model (objectiveTerms o c) (senseOf c)).status = GRBStatus.INFEASIBLE
  · rw [enumStep_stop_infeasible o c solver ms s hb1] at h
    injection h with h6 h7
    exact Or.inl h7.symm
  · by_cases hb2 : (solver s.model (objectiveTerms o c) (senseOf c)).status = GRBStatus.OPTIMAL
    · by_cases hb3 : (solver s.model (objectiveTerms o c) (senseOf c)).objVal + EPSILON < s.best
      · rw [enumStep_stop_degraded o c solver ms s hb2 hb3] at h
        injection h with h6 h7
        exact Or.inl h7.symm
      · rw [enumStep_emit o c solver ms s hb2 hb3] at h
        split_ifs at h with h4 h5
        all_goals
          first
          | exact StepOut.noConfusion h
          | (injection h with h6 h7
             exact Or.inr ⟨hb2, hb3, h7.symm⟩)
    · rw [enumStep_raise o c solver ms s hb1 hb2] at h
      exact StepOut.noConfusion h

lemma lexPhase_mono (o : PoolOptimiser) (solver : Solver) :
    ∀ (cs : List OptCriterion) (m m' : GModel),
    lexPhase o solver m cs = Except.ok m' →
    ∀ cst ∈ m.constrs, cst ∈ m'.constrs := by
  intro cs
  induction cs with
  | nil =>
    intro m m' h cst hc
    rw [lexPhase_nil] at h
    injection h with h1
    rw [← h1]
    exact hc
  | cons c rest ih =>
    intro m m' h cst hc
    rw [lexPhase_cons] at h
    split_ifs at h with hs
    refine ih _ _ h cst ?_
    simp only [enforce_objective]
    split_ifs <;> exact List.mem_append_left _ hc

lemma enumLoop_constrs_mono (o : PoolOptimiser) (c : OptCriterion) (solver : Solver)
    (ms : Int) :
    ∀ (fuel : Nat) (s : EnumSt) (r : StopReason) (s' : EnumSt),
    enumLoop o c solver ms fuel s = some (Except.ok (r, s')) →
    ∀ cst ∈ s.model.constrs, cst ∈ s'.model.constrs := by
  intro fuel
  induction fuel with
  | zero =>
    intro s r s' h
    rw [enumLoop_zero] at h
    exact Option.noConfusion h
  | succ f ih =>
    intro s r s' h cst hc
    cases hst : enumStep o c solver ms s with
    | cont s1 =>
      rw [enumLoop_succ_cont o c solver ms f s s1 hst] at h
      refine ih s1 r s' h cst ?_
      rw [(enumStep_cont_inv o c solver ms s s1 hst).2.1]
      exact List.mem_append_left _ hc
    | stop r1 s1 =>
      rw [enumLoop_succ_stop o c solver ms f s s1 r1 hst] at h
      injection h with h1
      injection h1 with h2
      injection h2 with h3 h4
      rcases enumStep_stop_inv o c solver ms s r1 s1 hst with h5 | ⟨_, _, h5⟩
      · rw [← h4, h5]
        exact hc
      · rw [← h4, h5]
        exact hc
    | err e =>
      rw [enumLoop_succ_err o c solver ms f s e hst] at h
      injection h with h1
      exact Except.noConfusion h1


/-- C2: for a non-final criterion solved to proven optimality with achieved
value `v`, `_enforce_objective` appends (and never retracts) the constraint
`z >= v` when the criterion's sense string is `'MAX'` and `z <= v` otherwise
(first conjunct: the posted row, appended to the model's constraint list);
the posted constraint is still in the model at the end of the lexicographic
phase (second conjunct), and every constraint present when the enumeration
loop starts is present in the model of every later state of that session
(third conjunct) — constraints only accumulate. -/
theorem C2_enforce_and_persist :
    (∀ (m : GModel) (z : List (ℚ × MIPVar)) (v : ℚ) (snse : String),
      (enforce_objective m z v snse).constrs
        = m.constrs ++ [Constr.mk z (if snse == "MAX" then Rel.ge else Rel.le) v])
    ∧ (∀ (o : PoolOptimiser) (solver : Solver) (m m' : GModel) (c : OptCriterion)
        (rest : List OptCriterion),
        lexPhase o solver m (c :: rest) = Except.ok m' →
        Constr.mk (objectiveTerms o c)
            (if c.sense == "MAX" then Rel.ge else Rel.le)
            (solver m (objectiveTerms o c) (senseOf c)).objVal
          ∈ m'.constrs)
    ∧ (∀ (o : PoolOptimiser) (c : OptCriterion) (solver : Solver) (ms : Int) (fuel : Nat)
        (s : EnumSt) (r : StopReason) (s' : EnumSt),
        enumLoop o c solver ms fuel s = some (Except.ok (r, s')) →
        ∀ cst ∈ s.model.constrs, cst ∈ s'.model.constrs) := by
  refine ⟨?_, ?_, ?_⟩
  · intro m z v snse
    simp only [enforce_objective]
    split_ifs with h <;> rfl
  · intro o solver m m' c rest h
    rw [lexPhase_cons] at h
    split_ifs at h with hs
    refine lexPhase_mono o solver rest _ m' h _ ?_
    simp only [enforce_objective]
    split_ifs with h2 <;> simp [h2]
  · exact enumLoop_constrs_mono

/-- C2 witness: the three conjuncts evaluated on the empty pool with one
maximising criterion: the posted row is `[] >= 0`, it is in the model the
lexicographic phase returns, and it survives the enumeration run. -/
theorem C2_enforce_and_persist_witness :
    (enforce_objective (GModel.mk [] []) [] 0 ("MAX")).constrs
        = [] ++ [Constr.mk [] (if ("MAX" : String) == "MAX" then Rel.ge else Rel.le) 0]
    ∧ lexPhase egEmptyO bruteSolver (GModel.mk [] []) [czero]
        = Except.ok (GModel.mk [] [Constr.mk [] Rel.ge 0])
    ∧ Constr.mk (objectiveTerms egEmptyO czero)
        (if czero.sense == "MAX" then Rel.ge else Rel.le)
        (bruteSolver (GModel.mk [] []) (objectiveTerms egEmptyO czero) (senseOf czero)).objVal
        ∈ (GModel.mk [] [Constr.mk [] Rel.ge 0]).constrs
    ∧ enumLoop egEmptyO czero bruteSolver 2 1
          (EnumSt.mk (GModel.mk [] [Constr.mk [] Rel.ge 0]) (-1) 0 [] [])
        = some (Except.ok (StopReason.empty,
            EnumSt.mk (GModel.mk [] [Constr.mk [] Rel.ge 0]) 0 1 [0] [[]]))
    ∧ Constr.mk [] Rel.ge 0
        ∈ (EnumSt.mk (GModel.mk [] [Constr.mk [] Rel.ge 0]) 0 1 [0] [[]]).model.constrs :=
  ⟨C2_enforce_and_persist.1 (GModel.mk [] []) [] 0 ("MAX"),
    by decide,
    C2_enforce_and_persist.2.1 egEmptyO bruteSolver (GModel.mk [] [])
      (GModel.mk [] [Constr.mk [] Rel.ge 0]) czero [] (by decide),
    by decide,
    C2_enforce_and_persist.2.2 egEmptyO czero bruteSolver 2 1
      (EnumSt.mk (GModel.mk [] [Constr.mk [] Rel.ge 0]) (-1) 0 [] [])
      StopReason.empty
      (EnumSt.mk (GModel.mk [] [Constr.mk [] Rel.ge 0]) 0 1 [0] [[]])
      (by decide) (Constr.mk [] Rel.ge 0) (by decide)⟩

lemma x_true_of_mem_selectedVars (o : PoolOptimiser) (x : MIPVar → Bool) (v : MIPVar)
    (h : v ∈ selectedVars o x) : x v = true := by
  simp only [selectedVars, List.mem_append, List.mem_map, List.mem_filter,
    List.mem_range] at h
  rcases h with (⟨i, hi, rfl⟩ | ⟨i, hi, rfl⟩) | ⟨i, hi, rfl⟩ <;> exact hi.2

lemma mem_selectedVars_of_bound (o : PoolOptimiser) (x : MIPVar → Bool) (v : MIPVar)
    (hb : varBound o v) (hx : x v = true) : v ∈ selectedVars o x := by
  simp only [selectedVars, List.mem_append, List.mem_map, List.mem_filter,
    List.mem_range]
  cases v with
  | chainVar i => exact Or.inl (Or.inl ⟨i, ⟨hb, hx⟩, rfl⟩)
  | cycleVar i => exact Or.inl (Or.inr ⟨i, ⟨hb, hx⟩, rfl⟩)
  | altruistVar i => exact Or.inr ⟨i, ⟨hb, hx⟩, rfl⟩

lemma asgnOf_selectedVars (o : PoolOptimiser) (x : MIPVar → Bool) (v : MIPVar)
    (hb : varBound o v) : asgnOf (selectedVars o x) v = x v := by
  simp only [asgnOf]
  cases hx : x v with
  | true =>
    simp only [List.contains_eq_any_beq, List.any_eq_true]
    exact ⟨v, mem_selectedVars_of_bound o x v hb hx, by simp⟩
  | false =>
    by_contra hc
    rw [Bool.not_eq_false] at hc
    simp only [List.contains_eq_any_beq, List.any_eq_true] at hc
    obtain ⟨u, hu, hbe⟩ := hc
    rw [beq_iff_eq] at hbe
    rw [← hbe] at hu
    rw [x_true_of_mem_selectedVars o x v hu] at hx
    exact Bool.noConfusion hx

lemma contains_iff_mem (l : List MIPVar) (v : MIPVar) :
    l.contains v = true ↔ v ∈ l := by
  simp [List.contains_eq_any_beq, List.any_eq_true]

lemma evalTerms_map_one (x : MIPVar → Bool) (l : List MIPVar) :
    evalTerms x (l.map (fun v => ((1 : ℚ), v))) = (l.countP (fun v => x v) : ℚ) := by
  induction l with
  | nil => simp [evalTerms]
  | cons a l ih =>
    simp only [evalTerms, List.map_map, List.map_cons, List.sum_cons,
      List.countP_cons, Function.comp] at ih ⊢
    cases hx : x a <;> simp [hx, ih, add_comm]

lemma cut_not_holds (x : MIPVar → Bool) (sel : List MIPVar)
    (hall : ∀ v ∈ sel, x v = true) :
    Constr.holds x (noGoodCut sel) = false := by
  simp only [noGoodCut, Constr.holds, evalTerms_map_one]
  rw [List.countP_eq_length.mpr hall]
  simp only [decide_eq_false_iff_not, not_le]
  linarith

lemma selectedVars_ne_of_cut (o : PoolOptimiser) (x : MIPVar → Bool) (sel : List MIPVar)
    (hc : Constr.holds x (noGoodCut sel) = true) : selectedVars o x ≠ sel := by
  intro heq
  have hall : ∀ v ∈ sel, x v = true := by
    intro v hv
    rw [← heq] at hv
    exact x_true_of_mem_selectedVars o x v hv
  rw [cut_not_holds x sel hall] at hc
  exact Bool.noConfusion hc

lemma pickBest_mem_gen (p : List MIPVar → List MIPVar → Bool) :
    ∀ (fs : List (List MIPVar)) (acc : List MIPVar),
    fs.foldl (fun a b => if p a b then a else b) acc ∈ acc :: fs := by
  intro fs
  induction fs with
  | nil => intro acc; exact List.mem_singleton.mpr rfl
  | cons b bs ih =>
    intro acc
    simp only [List.foldl_cons]
    by_cases hp : p acc b = true
    · rw [if_pos hp]
      rcases List.mem_cons.mp (ih acc) with h | h
      · rw [h]
        exact List.mem_cons_self _ _
      · exact List.mem_cons_of_mem _ (List.mem_cons_of_mem _ h)
    · rw [if_neg hp]
      rcases List.mem_cons.mp (ih b) with h | h
      · rw [h]
        exact List.mem_cons_of_mem _ (List.mem_cons_self _ _)
      · exact List.mem_cons_of_mem _ (List.mem_cons_of_mem _ h)

lemma bruteSolver_nil (m : GModel) (obj : List (ℚ × MIPVar)) (sense : Sense)
    (hfs : feasibleSubsets m = []) :
    bruteSolver m obj sense
      = SolveResult.mk GRBStatus.INFEASIBLE (fun _ => false) 0 := by
  simp only [bruteSolver]
  rw [hfs]

lemma bruteSolver_cons (m : GModel) (obj : List (ℚ × MIPVar)) (sense : Sense)
    (f : List MIPVar) (fs : List (List MIPVar)) (hfs : feasibleSubsets m = f :: fs) :
    bruteSolver m obj sense
      = SolveResult.mk GRBStatus.OPTIMAL (asgnOf (pickBest sense obj f fs))
          (evalTerms (asgnOf (pickBest sense obj f fs)) obj) := by
  simp only [bruteSolver]
  rw [hfs]

lemma bruteSolver_sound : SolverSound bruteSolver := by
  intro m obj sense hst cst hc
  cases hfs : feasibleSubsets m with
  | nil =>
    rw [bruteSolver_nil m obj sense hfs] at hst
    exact absurd hst (by simp)
  | cons f fs =>
    rw [bruteSolver_cons m obj sense f fs hfs]
    have hmem : pickBest sense obj f fs ∈ feasibleSubsets m := by
      rw [hfs]
      exact pickBest_mem_gen (betterEq sense obj) fs f
    simp only [feasibleSubsets, List.mem_filter] at hmem
    exact (List.all_eq_true.mp hmem.2) cst hc


lemma solve_ok_inv (o : PoolOptimiser) (g : List OptCriterion) (solver : Solver)
    (ms : Int) (fuel : Nat) (out : SolveOut)
    (h : solve o g solver ms fuel = some (Except.ok out)) :
    ∃ (c0 : OptCriterion) (cs : List OptCriterion) (m1 : GModel) (r : StopReason)
      (s' : EnumSt),
      g = c0 :: cs
      ∧ lexPhase o solver (create_vars_and_constraints o) (c0 :: cs).dropLast
          = Except.ok m1
      ∧ enumLoop o ((c0 :: cs).getLast (List.cons_ne_nil c0 cs)) solver ms fuel
          (EnumSt.mk m1 (-1) 0 [] []) = some (Except.ok (r, s'))
      ∧ out = SolveOut.mk s'.best s'.nsols (decide (r = StopReason.maxReached)) r
          s'.objvals s'.sels := by
  cases g with
  | nil =>
    rw [solve_nil] at h
    injection h with h1
    exact Except.noConfusion h1
  | cons c0 cs =>
    rw [solve_cons] at h
    cases hlex : lexPhase o solver (create_vars_and_constraints o) (c0 :: cs).dropLast with
    | error e =>
      rw [hlex, afterLex_error] at h
      injection h with h1
      exact Except.noConfusion h1
    | ok m1 =>
      rw [hlex, afterLex_ok] at h
      cases hloop : enumLoop o ((c0 :: cs).getLast (List.cons_ne_nil c0 cs)) solver ms fuel
          (EnumSt.mk m1 (-1) 0 [] []) with
      | none =>
        rw [solveFromModel_none o _ solver ms fuel m1 hloop] at h
        exact Option.noConfusion h
      | some v =>
        cases v with
        | error e =>
          rw [solveFromModel_error o _ solver ms fuel m1 e hloop] at h
          injection h with h1
          exact Except.noConfusion h1
        | ok p =>
          obtain ⟨r, s'⟩ := p
          rw [solveFromModel_out o _ solver ms fuel m1 r s' hloop] at h
          injection h with h1
          injection h1 with h2
          exact ⟨c0, cs, m1, r, s', rfl, hlex, hloop, h2.symm⟩

lemma enumLoop_sels_nodup (o : PoolOptimiser) (c : OptCriterion) (solver : Solver)
    (ms : Int) (hs : SolverSound solver) :
    ∀ (fuel : Nat) (s : EnumSt) (r : StopReason) (s' : EnumSt),
    enumLoop o c solver ms fuel s = some (Except.ok (r, s')) →
    s.sels.Nodup →
    (∀ sel ∈ s.sels, noGoodCut sel ∈ s.model.constrs) →
    s'.sels.Nodup := by
  intro fuel
  induction fuel with
  | zero =>
    intro s r s' h
    rw [enumLoop_zero] at h
    exact Option.noConfusion h
  | succ f ih =>
    intro s r s' h hnd hcuts
    cases hst : enumStep o c solver ms s with
    | cont s1 =>
      obtain ⟨hvars, hconstrs, _, _, _, hsels, hopt, _, _⟩ :=
        enumStep_cont_inv o c solver ms s s1 hst
      rw [enumLoop_succ_cont o c solver ms f s s1 hst] at h
      have hne : selectedVars o (solver s.model (objectiveTerms o c) (senseOf c)).x
          ∉ s.sels := fun hmem =>
        selectedVars_ne_of_cut o _ _
          (hs s.model (objectiveTerms o c) (senseOf c) hopt _ (hcuts _ hmem)) rfl
      refine ih s1 r s' h ?_ ?_
      · rw [hsels]
        refine List.Nodup.append hnd (List.nodup_singleton _) ?_
        intro a ha hb
        rw [List.mem_singleton] at hb
        subst hb
        exact hne ha
      · intro sel hsel
        rw [hconstrs]
        rw [hsels] at hsel
        rcases List.mem_append.mp hsel with hm | hm
        · exact List.mem_append_left _ (hcuts sel hm)
        · rw [List.mem_singleton] at hm
          subst hm
          exact List.mem_append_right _ (List.mem_singleton.mpr rfl)
    | stop r1 s1 =>
      rw [enumLoop_succ_stop o c solver ms f s s1 r1 hst] at h
      injection h with h1
      injection h1 with h2
      injection h2 with h3 h4
      rcases enumStep_stop_inv o c solver ms s r1 s1 hst with h5 | ⟨hopt, _, h5⟩
      · rw [← h4, h5]
        exact hnd
      · rw [← h4, h5]
        simp only [emitState]
        have hne : selectedVars o (solver s.model (objectiveTerms o c) (senseOf c)).x
            ∉ s.sels := fun hmem =>
          selectedVars_ne_of_cut o _ _
            (hs s.model (objectiveTerms o c) (senseOf c) hopt _ (hcuts _ hmem)) rfl
        refine List.Nodup.append hnd (List.nodup_singleton _) ?_
        intro a ha hb
        rw [List.mem_singleton] at hb
        subst hb
        exact hne ha
    | err e =>
      rw [enumLoop_succ_err o c solver ms f s e hst] at h
      injection h with h1
      exact Except.noConfusion h1


/-- C7: after a non-empty emission the loop posts the no-good cut — the sum
of exactly that selection's variables at most its count minus one — before
resolving (second conjunct, from the continue branch of one iteration), and
consequently no completed run ever emits the same selection twice: the
emitted stream has no duplicates (first conjunct, for any sound solver). -/
theorem C7_exclusion (o : PoolOptimiser) (g : List OptCriterion) (solver : Solver)
    (ms : Int) (fuel : Nat) (out : SolveOut)
    (hs : SolverSound solver)
    (h : solve o g solver ms fuel = some (Except.ok out)) :
    out.sels.Nodup
    ∧ (∀ (c : OptCriterion) (ms' : Int) (s s1 : EnumSt),
        enumStep o c solver ms' s = StepOut.cont s1 →
        selectedVars o (solver s.model (objectiveTerms o c) (senseOf c)).x ≠ []
        ∧ s1.sels = s.sels
            ++ [selectedVars o (solver s.model (objectiveTerms o c) (senseOf c)).x]
        ∧ s1.model.constrs = s.model.constrs
            ++ [noGoodCut (selectedVars o (solver s.model (objectiveTerms o c) (senseOf c)).x)]
        ∧ noGoodCut (selectedVars o (solver s.model (objectiveTerms o c) (senseOf c)).x)
            = Constr.mk
                ((selectedVars o (solver s.model (objectiveTerms o c) (senseOf c)).x).map
                  (fun v => ((1 : ℚ), v)))
                Rel.le
                (((selectedVars o (solver s.model (objectiveTerms o c) (senseOf c)).x).length
                  : ℚ) - 1)) := by
  constructor
  · obtain ⟨c0, cs, m1, r, s', hg, hlex, hloop, hout⟩ :=
      solve_ok_inv o g solver ms fuel out h
    have := enumLoop_sels_nodup o ((c0 :: cs).getLast (List.cons_ne_nil c0 cs)) solver ms
      hs fuel (EnumSt.mk m1 (-1) 0 [] []) r s' hloop List.nodup_nil
      (by intro sel hsel; exact absurd hsel (List.not_mem_nil sel))
    rw [hout]
    exact this
  · intro c ms' s s1 hst
    obtain ⟨_, hconstrs, _, _, _, hsels, _, _, hne⟩ :=
      enumStep_cont_inv o c solver ms' s s1 hst
    exact ⟨hne, hsels, hconstrs, rfl⟩

/-- C7 witness: a pool with four tied-optimal selections; the emitted stream
has four pairwise-distinct selections. -/
theorem C7_exclusion_witness :
    SolverSound bruteSolver
    ∧ solve c8opt [czero] bruteSolver 100 5
        = some (Except.ok (SolveOut.mk 0 4 false StopReason.infeasible [0, 0, 0, 0]
            [[MIPVar.chainVar 0], [MIPVar.chainVar 1], [MIPVar.chainVar 2],
              [MIPVar.altruistVar 0]]))
    ∧ ([[MIPVar.chainVar 0], [MIPVar.chainVar 1], [MIPVar.chainVar 2],
        [MIPVar.altruistVar 0]] : List (List MIPVar)).Nodup :=
  ⟨bruteSolver_sound, by decide,
    (C7_exclusion c8opt [czero] bruteSolver 100 5
      (SolveOut.mk 0 4 false StopReason.infeasible [0, 0, 0, 0]
        [[MIPVar.chainVar 0], [MIPVar.chainVar 1], [MIPVar.chainVar 2],
          [MIPVar.altruistVar 0]])
      bruteSolver_sound (by decide)).1⟩


lemma enforce_objective_vars (m : GModel) (z : List (ℚ × MIPVar)) (v : ℚ) (snse : String) :
    (enforce_objective m z v snse).vars = m.vars := by
  simp only [enforce_objective]
  split_ifs <;> rfl

lemma lexPhase_vars (o : PoolOptimiser) (solver : Solver) :
    ∀ (cs : List OptCriterion) (m m' : GModel),
    lexPhase o solver m cs = Except.ok m' → m'.vars = m.vars := by
  intro cs
  induction cs with
  | nil =>
    intro m m' h
    rw [lexPhase_nil] at h
    injection h with h1
    rw [h1]
  | cons c rest ih =>
    intro m m' h
    rw [lexPhase_cons] at h
    split_ifs at h with hs
    rw [ih _ _ h, enforce_objective_vars]

lemma patientMipVars_bound (o : PoolOptimiser) (p : Nat) (v : MIPVar)
    (h : v ∈ patientMipVars o p) : varBound o v := by
  simp only [patientMipVars, List.mem_append, List.mem_flatMap, List.mem_map] at h
  rcases h with ⟨ic, hic, _, _, rfl⟩ | ⟨ic, hic, _, _, rfl⟩ <;>
    simpa [varBound] using (List.mem_enum hic).1

lemma donorMipVars_bound (o : PoolOptimiser) (d : Donor) (v : MIPVar)
    (h : v ∈ donorMipVars o d) : varBound o v := by
  simp only [donorMipVars, List.mem_append, List.mem_flatMap, List.mem_map] at h
  rcases h with ⟨ic, hic, _, _, rfl⟩ | ⟨ic, hic, _, _, rfl⟩ <;>
    simpa [varBound] using (List.mem_enum hic).1

lemma altruistMipVars_bound (o : PoolOptimiser) (j : Nat) (a : Altruist)
    (hj : j < o.pool.altruists.length) (v : MIPVar)
    (h : v ∈ altruistMipVars o j a) : varBound o v := by
  simp only [altruistMipVars, List.mem_cons, List.mem_map, List.mem_filter] at h
  rcases h with rfl | ⟨ic, ⟨hic, _⟩, rfl⟩
  · exact hj
  · simpa [varBound] using (List.mem_enum hic).1

lemma create_bounded (o : PoolOptimiser) :
    ModelVarsBounded o (create_vars_and_constraints o) := by
  intro cst hc t ht
  simp only [create_vars_and_constraints, List.mem_append, List.mem_map] at hc
  rcases hc with (⟨p, _, rfl⟩ | ⟨d, _, rfl⟩) | ⟨ja, hja, rfl⟩
  · simp only [List.mem_map] at ht
    obtain ⟨v, hv, rfl⟩ := ht
    exact patientMipVars_bound o p v hv
  · simp only [List.mem_map] at ht
    obtain ⟨v, hv, rfl⟩ := ht
    exact donorMipVars_bound o d v hv
  · simp only [List.mem_map] at ht
    obtain ⟨v, hv, rfl⟩ := ht
    exact altruistMipVars_bound o ja.1 ja.2 (List.mem_enum hja).1 v hv

lemma objectiveTerms_bound (o : PoolOptimiser) (c : OptCriterion) (t : ℚ × MIPVar)
    (h : t ∈ objectiveTerms o c) : varBound o t.2 := by
  simp only [objectiveTerms, List.mem_append, List.mem_map] at h
  rcases h with (⟨ic, hic, rfl⟩ | ⟨ic, hic, rfl⟩) | ⟨ja, hja, rfl⟩ <;>
    simpa [varBound] using (List.mem_enum (by assumption)).1

lemma lexPhase_bounded (o : PoolOptimiser) (solver : Solver) :
    ∀ (cs : List OptCriterion) (m m' : GModel),
    lexPhase o solver m cs = Except.ok m' →
    ModelVarsBounded o m → ModelVarsBounded o m' := by
  intro cs
  induction cs with
  | nil =>
    intro m m' h hb
    rw [lexPhase_nil] at h
    injection h with h1
    rw [← h1]
    exact hb
  | cons c rest ih =>
    intro m m' h hb
    rw [lexPhase_cons] at h
    split_ifs at h with hs
    refine ih _ _ h ?_
    intro cst hc t ht
    simp only [enforce_objective] at hc
    split_ifs at hc with h2 <;>
    · rcases List.mem_append.mp hc with hm | hm
      · exact hb cst hm t ht
      · rw [List.mem_singleton] at hm
        subst hm
        exact objectiveTerms_bound o c t ht

lemma selectedVars_sublist (o : PoolOptimiser) (x : MIPVar → Bool) :
    (selectedVars o x).Sublist (create_vars_and_constraints o).vars := by
  simp only [selectedVars, create_vars_and_constraints]
  refine List.Sublist.append (List.Sublist.append ?_ ?_) ?_ <;>
    exact List.Sublist.map _ (List.filter_sublist _)

lemma evalTerms_congr (x y : MIPVar → Bool) (ts : List (ℚ × MIPVar))
    (h : ∀ t ∈ ts, x t.2 = y t.2) : evalTerms x ts = evalTerms y ts := by
  simp only [evalTerms]
  congr 1
  refine List.map_congr_left ?_
  intro t ht
  rw [h t ht]

lemma holds_congr (x y : MIPVar → Bool) (cst : Constr)
    (h : ∀ t ∈ cst.terms, x t.2 = y t.2) : Constr.holds x cst = Constr.holds y cst := by
  obtain ⟨ts, rel, rhs⟩ := cst
  cases rel <;> simp only [Constr.holds] <;> rw [evalTerms_congr x y ts h]

lemma emitted_mem_feasible (o : PoolOptimiser) (x : MIPVar → Bool) (m1 : GModel)
    (hb : ModelVarsBounded o m1) (hv : m1.vars = (create_vars_and_constraints o).vars)
    (hsat : ∀ cst ∈ m1.constrs, Constr.holds x cst = true) :
    selectedVars o x ∈ feasibleSubsets m1 := by
  simp only [feasibleSubsets, List.mem_filter]
  constructor
  · rw [List.mem_sublists, hv]
    exact selectedVars_sublist o x
  · rw [List.all_eq_true]
    intro cst hc
    rw [holds_congr (asgnOf (selectedVars o x)) x cst
      (fun t ht => asgnOf_selectedVars o x t.2 (hb cst hc t ht))]
    exact hsat cst hc


lemma nodup_subset_length (l fe : List (List MIPVar)) (hnd : l.Nodup)
    (hsub : ∀ a ∈ l, a ∈ fe) : l.length ≤ fe.length :=
  le_trans (le_of_eq (List.toFinset_card_of_nodup hnd).symm)
    (le_trans
      (Finset.card_le_card
        (fun a ha => List.mem_toFinset.mpr (hsub a (List.mem_toFinset.mp ha))))
      (List.toFinset_card_le fe))

lemma enumLoop_term (o : PoolOptimiser) (c : OptCriterion) (solver : Solver) (ms : Int)
    (hs : SolverSound solver) (m1 : GModel)
    (hb : ModelVarsBounded o m1) (hv : m1.vars = (create_vars_and_constraints o).vars) :
    ∀ (fuel : Nat) (s : EnumSt),
    (∀ cst ∈ m1.constrs, cst ∈ s.model.constrs) →
    (∀ sel ∈ s.sels, noGoodCut sel ∈ s.model.constrs) →
    s.sels.Nodup →
    (∀ sel ∈ s.sels, sel ∈ feasibleSubsets m1) →
    (feasibleSubsets m1).length + 1 ≤ fuel + s.sels.length →
    enumLoop o c solver ms fuel s ≠ none := by
  intro fuel
  induction fuel with
  | zero =>
    intro s hm hcuts hnd hfeas hlen
    have := nodup_subset_length s.sels (feasibleSubsets m1) hnd hfeas
    omega
  | succ f ih =>
    intro s hm hcuts hnd hfeas hlen
    cases hst : enumStep o c solver ms s with
    | cont s1 =>
      rw [enumLoop_succ_cont o c solver ms f s s1 hst]
      obtain ⟨hvars, hconstrs, _, _, _, hsels, hopt, _, _⟩ :=
        enumStep_cont_inv o c solver ms s s1 hst
      have hsat : ∀ cst ∈ m1.constrs,
          Constr.holds (solver s.model (objectiveTerms o c) (senseOf c)).x cst = true :=
        fun cst hc => hs s.model (objectiveTerms o c) (senseOf c) hopt cst (hm cst hc)
      have hfeasNew := emitted_mem_feasible o
        (solver s.model (objectiveTerms o c) (senseOf c)).x m1 hb hv hsat
      have hne : selectedVars o (solver s.model (objectiveTerms o c) (senseOf c)).x
          ∉ s.sels := fun hmem =>
        selectedVars_ne_of_cut o _ _
          (hs s.model (objectiveTerms o c) (senseOf c) hopt _ (hcuts _ hmem)) rfl
      refine ih s1 ?_ ?_ ?_ ?_ ?_
      · intro cst hc
        rw [hconstrs]
        exact List.mem_append_left _ (hm cst hc)
      · intro sel hsel
        rw [hconstrs]
        rw [hsels] at hsel
        rcases List.mem_append.mp hsel with hmm | hmm
        · exact List.mem_append_left _ (hcuts sel hmm)
        · rw [List.mem_singleton] at hmm
          subst hmm
          exact List.mem_append_right _ (List.mem_singleton.mpr rfl)
      · rw [hsels]
        refine List.Nodup.append hnd (List.nodup_singleton _) ?_
        intro a ha hab
        rw [List.mem_singleton] at hab
        subst hab
        exact hne ha
      · intro sel hsel
        rw [hsels] at hsel
        rcases List.mem_append.mp hsel with hmm | hmm
        · exact hfeas sel hmm
        · rw [List.mem_singleton] at hmm
          subst hmm
          exact hfeasNew
      · rw [hsels, List.length_append, List.length_singleton]
        omega
    | stop r1 s1 =>
      rw [enumLoop_succ_stop o c solver ms f s s1 r1 hst]
      exact Option.noConfusion
    | err e =>
      rw [enumLoop_succ_err o c solver ms f s e hst]
      exact Option.noConfusion

/-- C8 (amended): for any sound solver, the final-rank enumeration reaches a
stop condition (or the code's exception) within (number of distinct feasible
selections of the model at the start of enumeration) + 1 iterations: `solve`
with that much fuel never runs out. Each emission is a distinct member of
the finite feasible set, so the loop cannot iterate longer. -/
theorem C8_termination (o : PoolOptimiser) (g : List OptCriterion) (solver : Solver)
    (ms : Int) (fuel : Nat) (m1 : GModel)
    (hs : SolverSound solver) (hg : g ≠ [])
    (h1 : lexPhase o solver (create_vars_and_constraints o) g.dropLast = Except.ok m1)
    (hf : (feasibleSubsets m1).length + 1 ≤ fuel) :
    solve o g solver ms fuel ≠ none := by
  cases g with
  | nil => exact absurd rfl hg
  | cons c0 cs =>
    have hb := lexPhase_bounded o solver (c0 :: cs).dropLast _ m1 h1 (create_bounded o)
    have hv := lexPhase_vars o solver (c0 :: cs).dropLast _ m1 h1
    rw [solve_cons, h1, afterLex_ok]
    cases hloop : enumLoop o ((c0 :: cs).getLast (List.cons_ne_nil c0 cs)) solver ms fuel
        (EnumSt.mk m1 (-1) 0 [] []) with
    | none =>
      exact absurd hloop
        (enumLoop_term o ((c0 :: cs).getLast (List.cons_ne_nil c0 cs)) solver ms hs m1
          hb hv fuel (EnumSt.mk m1 (-1) 0 [] []) (fun cst hc => hc)
          (fun sel hsel => absurd hsel (List.not_mem_nil sel))
          List.nodup_nil
          (fun sel hsel => absurd hsel (List.not_mem_nil sel))
          (by simpa using hf))
    | some v =>
      cases v with
      | error e =>
        rw [solveFromModel_error o _ solver ms fuel m1 e hloop]
        exact Option.noConfusion
      | ok p =>
        obtain ⟨r, s'⟩ := p
        rw [solveFromModel_out o _ solver ms fuel m1 r s' hloop]
        exact Option.noConfusion


/-- C8 counterexample: with the drifting criterion (chain values `1.8e-7`,
`0.9e-7`, `0`, idle `-0.9e-7`) only two selections are within `EPSILON` of
the true final-rank optimum, yet the loop needs five iterations (four
emissions plus the closing infeasible solve): with fuel `2 + 1` the loop has
not yet stopped, so the claimed bound "distinct tied-optimal selections plus
one" is exceeded; with fuel 5 it terminates on infeasibility. The best-known
value drifts down by up to `EPSILON` per emission, so selections far below
the optimum are still accepted. -/
theorem C8_counterexample :
    tiedOptimalCount (create_vars_and_constraints c8opt) (objectiveTerms c8opt c8crit) = 2
    ∧ solve c8opt [c8crit] bruteSolver 100 3 = none
    ∧ solve c8opt [c8crit] bruteSolver 100 5
        = some (Except.ok (SolveOut.mk ((-9)/100000000) 4 false StopReason.infeasible
            [18/100000000, 9/100000000, 0, (-9)/100000000]
            [[MIPVar.chainVar 0], [MIPVar.chainVar 1], [MIPVar.chainVar 2],
              [MIPVar.altruistVar 0]])) :=
  ⟨by decide, by decide, by decide⟩

/-- C8 witness: on the empty pool the feasible set has one selection and
fuel 2 suffices. -/
theorem C8_termination_witness :
    SolverSound bruteSolver
    ∧ lexPhase egEmptyO bruteSolver (create_vars_and_constraints egEmptyO)
        ([czero] : List OptCriterion).dropLast = Except.ok (GModel.mk [] [])
    ∧ (feasibleSubsets (GModel.mk [] [])).length + 1 ≤ 2
    ∧ solve egEmptyO [czero] bruteSolver 100 2 ≠ none :=
  ⟨bruteSolver_sound, by decide, by decide,
    C8_termination egEmptyO [czero] bruteSolver 100 2 (GModel.mk [] [])
      bruteSolver_sound (List.cons_ne_nil czero []) (by decide) (by decide)⟩



lemma length_filter_le_sum {α : Type} (l : List α) (q : α → Bool) (w : α → Nat)
    (h : ∀ a ∈ l, q a = true → 1 ≤ w a) :
    (l.filter q).length ≤ (l.map w).sum := by
  induction l with
  | nil => simp
  | cons a t ih =>
    have iht := ih (fun b hb hq => h b (List.mem_cons_of_mem a hb) hq)
    simp only [List.filter_cons, List.map_cons, List.sum_cons]
    cases hq : q a with
    | false =>
      simp only [hq, Bool.false_eq_true, if_false]
      omega
    | true =>
      have h1 := h a (List.mem_cons_self a t) hq
      simp only [hq, if_true, List.length_cons]
      omega

lemma countP_map_indicator (x : MIPVar → Bool) {α : Type} (l : List α) (v : MIPVar) :
    (l.map (fun _ => v)).countP (fun u => x u)
      = if x v = true then l.length else 0 := by
  rw [List.countP_map]
  cases hx : x v with
  | true =>
    rw [if_pos rfl]
    rw [List.countP_eq_length.mpr]
    intro a _
    simpa [Function.comp] using hx
  | false =>
    rw [if_neg (by simp)]
    rw [List.countP_eq_zero.mpr]
    intro a _
    simpa [Function.comp] using hx

lemma selectedItemsWithPatient_le (o : PoolOptimiser) (x : MIPVar → Bool) (p : Nat) :
    selectedItemsWithPatient o (selectedVars o x) p
      ≤ (patientMipVars o p).countP (fun v => x v) := by
  simp only [selectedItemsWithPatient, patientMipVars, List.countP_append,
    List.countP_flatMap]
  have hchain : (o.chains.enum.filter
      (fun ic => (selectedVars o x).contains (MIPVar.chainVar ic.1)
        && chainUsesPatient ic.2 p)).length
      ≤ (o.chains.enum.map (List.countP (fun v => x v) ∘ (fun ic =>
          (ic.2.pd_pairs.filter (fun pr => pr.patient == p)).map
            (fun _ => MIPVar.chainVar ic.1)))).sum := by
    refine length_filter_le_sum _ _ _ ?_
    intro ic _ hq
    simp only [Bool.and_eq_true] at hq
    have hx : x (MIPVar.chainVar ic.1) = true :=
      x_true_of_mem_selectedVars o x _ ((contains_iff_mem _ _).mp hq.1)
    simp only [Function.comp, countP_map_indicator, if_pos hx]
    have : ∃ pr ∈ ic.2.pd_pairs, (pr.patient == p) = true := by
      simpa [chainUsesPatient, List.any_eq_true] using hq.2
    obtain ⟨pr, hpr, hpp⟩ := this
    have : pr ∈ ic.2.pd_pairs.filter (fun pr => pr.patient == p) :=
      List.mem_filter.mpr ⟨hpr, hpp⟩
    have := List.length_pos.mpr (List.ne_nil_of_mem this)
    omega
  have hcycle : (o.cycles.enum.filter
      (fun ic => (selectedVars o x).contains (MIPVar.cycleVar ic.1)
        && cycleUsesPatient ic.2 p)).length
      ≤ (o.cycles.enum.map (List.countP (fun v => x v) ∘ (fun ic =>
          (ic.2.pd_pairs.filter (fun pr => pr.patient == p)).map
            (fun _ => MIPVar.cycleVar ic.1)))).sum := by
    refine length_filter_le_sum _ _ _ ?_
    intro ic _ hq
    simp only [Bool.and_eq_true] at hq
    have hx : x (MIPVar.cycleVar ic.1) = true :=
      x_true_of_mem_selectedVars o x _ ((contains_iff_mem _ _).mp hq.1)
    simp only [Function.comp, countP_map_indicator, if_pos hx]
    have : ∃ pr ∈ ic.2.pd_pairs, (pr.patient == p) = true := by
      simpa [cycleUsesPatient, List.any_eq_true] using hq.2
    obtain ⟨pr, hpr, hpp⟩ := this
    have : pr ∈ ic.2.pd_pairs.filter (fun pr => pr.patient == p) :=
      List.mem_filter.mpr ⟨hpr, hpp⟩
    have := List.length_pos.mpr (List.ne_nil_of_mem this)
    omega
  omega


lemma selectedItemsWithDonor_le (o : PoolOptimiser) (x : MIPVar → Bool) (d : Donor)
    (hlen : 1 < d.paired_patients.length) :
    selectedItemsWithDonor o (selectedVars o x) d
      ≤ (donorMipVars o d).countP (fun v => x v) := by
  simp only [selectedItemsWithDonor, donorMipVars, List.countP_append,
    List.countP_flatMap]
  have hchain : (o.chains.enum.filter
      (fun ic => (selectedVars o x).contains (MIPVar.chainVar ic.1)
        && chainUsesDonor ic.2 d)).length
      ≤ (o.chains.enum.map (List.countP (fun v => x v) ∘ (fun ic =>
          (ic.2.pd_pairs.filter
            (fun pr => pr.donor == d && decide (1 < pr.donor.paired_patients.length))).map
            (fun _ => MIPVar.chainVar ic.1)))).sum := by
    refine length_filter_le_sum _ _ _ ?_
    intro ic _ hq
    simp only [Bool.and_eq_true] at hq
    have hx : x (MIPVar.chainVar ic.1) = true :=
      x_true_of_mem_selectedVars o x _ ((contains_iff_mem _ _).mp hq.1)
    simp only [Function.comp, countP_map_indicator, if_pos hx]
    have : ∃ pr ∈ ic.2.pd_pairs, (pr.donor == d) = true := by
      simpa [chainUsesDonor, List.any_eq_true] using hq.2
    obtain ⟨pr, hpr, hpp⟩ := this
    have hcond : (pr.donor == d && decide (1 < pr.donor.paired_patients.length)) = true := by
      rw [Bool.and_eq_true]
      refine ⟨hpp, decide_eq_true ?_⟩
      rw [beq_iff_eq] at hpp
      rw [hpp]
      exact hlen
    have : pr ∈ ic.2.pd_pairs.filter
        (fun pr => pr.donor == d && decide (1 < pr.donor.paired_patients.length)) :=
      List.mem_filter.mpr ⟨hpr, hcond⟩
    have := List.length_pos.mpr (List.ne_nil_of_mem this)
    omega
  have hcycle : (o.cycles.enum.filter
      (fun ic => (selectedVars o x).contains (MIPVar.cycleVar ic.1)
        && cycleUsesDonor ic.2 d)).length
      ≤ (o.cycles.enum.map (List.countP (fun v => x v) ∘ (fun ic =>
          (ic.2.pd_pairs.filter
            (fun pr => pr.donor == d && decide (1 < pr.donor.paired_patients.length))).map
            (fun _ => MIPVar.cycleVar ic.1)))).sum := by
    refine length_filter_le_sum _ _ _ ?_
    intro ic _ hq
    simp only [Bool.and_eq_true] at hq
    have hx : x (MIPVar.cycleVar ic.1) = true :=
      x_true_of_mem_selectedVars o x _ ((contains_iff_mem _ _).mp hq.1)
    simp only [Function.comp, countP_map_indicator, if_pos hx]
    have : ∃ pr ∈ ic.2.pd_pairs, (pr.donor == d) = true := by
      simpa [cycleUsesDonor, List.any_eq_true] using hq.2
    obtain ⟨pr, hpr, hpp⟩ := this
    have hcond : (pr.donor == d && decide (1 < pr.donor.paired_patients.length)) = true := by
      rw [Bool.and_eq_true]
      refine ⟨hpp, decide_eq_true ?_⟩
      rw [beq_iff_eq] at hpp
      rw [hpp]
      exact hlen
    have : pr ∈ ic.2.pd_pairs.filter
        (fun pr => pr.donor == d && decide (1 < pr.donor.paired_patients.length)) :=
      List.mem_filter.mpr ⟨hpr, hcond⟩
    have := List.length_pos.mpr (List.ne_nil_of_mem this)
    omega
  omega

lemma selectedChains_eq_countP (o : PoolOptimiser) (x : MIPVar → Bool) (a : Altruist) :
    selectedChainsFromAltruist o (selectedVars o x) a
      = ((o.chains.enum.filter (fun ic => ic.2.altruist_nhs_id == a.nhs_id)).map
          (fun ic => MIPVar.chainVar ic.1)).countP (fun v => x v) := by
  rw [List.countP_map, selectedChainsFromAltruist]
  rw [List.countP_eq_length_filter, List.filter_filter]
  congr 1
  refine List.filter_congr ?_
  intro ic hic
  have hb : varBound o (MIPVar.chainVar ic.1) := by
    simpa [varBound] using (List.mem_enum hic).1
  have : (selectedVars o x).contains (MIPVar.chainVar ic.1) = x (MIPVar.chainVar ic.1) :=
    asgnOf_selectedVars o x _ hb
  rw [Bool.and_comm]
  rw [this]
  rfl


lemma selection_invariants_of_feasible (o : PoolOptimiser) (x : MIPVar → Bool)
    (hsat : ∀ cst ∈ (create_vars_and_constraints o).constrs, Constr.holds x cst = true) :
    (∀ p ∈ o.pool.patients, selectedItemsWithPatient o (selectedVars o x) p ≤ 1)
    ∧ (∀ d ∈ o.pool.paired_donors, 1 < d.paired_patients.length →
        selectedItemsWithDonor o (selectedVars o x) d ≤ 1)
    ∧ (∀ ja ∈ o.pool.altruists.enum,
        ((selectedVars o x).contains (MIPVar.altruistVar ja.1) = true
          ∧ selectedChainsFromAltruist o (selectedVars o x) ja.2 = 0)
        ∨ ((selectedVars o x).contains (MIPVar.altruistVar ja.1) = false
          ∧ selectedChainsFromAltruist o (selectedVars o x) ja.2 = 1)) := by
  refine ⟨?_, ?_, ?_⟩
  · intro p hp
    have hmem : Constr.mk ((patientMipVars o p).map (fun v => ((1 : ℚ), v))) Rel.le 1
        ∈ (create_vars_and_constraints o).constrs :=
      List.mem_append_left _ (List.mem_append_left _ (List.mem_map_of_mem _ hp))
    have h := hsat _ hmem
    simp only [Constr.holds, decide_eq_true_eq, evalTerms_map_one] at h
    have hcount : (patientMipVars o p).countP (fun v => x v) ≤ 1 := by exact_mod_cast h
    exact le_trans (selectedItemsWithPatient_le o x p) hcount
  · intro d hd hlen
    have hmem : Constr.mk ((donorMipVars o d).map (fun v => ((1 : ℚ), v))) Rel.le 1
        ∈ (create_vars_and_constraints o).constrs :=
      List.mem_append_left _ (List.mem_append_right _ (List.mem_map_of_mem _ hd))
    have h := hsat _ hmem
    simp only [Constr.holds, decide_eq_true_eq, evalTerms_map_one] at h
    have hcount : (donorMipVars o d).countP (fun v => x v) ≤ 1 := by exact_mod_cast h
    exact le_trans (selectedItemsWithDonor_le o x d hlen) hcount
  · intro ja hja
    have hmem : Constr.mk ((altruistMipVars o ja.1 ja.2).map (fun v => ((1 : ℚ), v)))
        Rel.eq 1 ∈ (create_vars_and_constraints o).constrs :=
      List.mem_append_right _ (List.mem_map_of_mem _ hja)
    have h := hsat _ hmem
    simp only [Constr.holds, decide_eq_true_eq, evalTerms_map_one] at h
    have hcount : (altruistMipVars o ja.1 ja.2).countP (fun v => x v) = 1 := by
      exact_mod_cast h
    rw [altruistMipVars, List.countP_cons] at hcount
    have hb : varBound o (MIPVar.altruistVar ja.1) := by
      simpa [varBound] using (List.mem_enum hja).1
    have hcontains := asgnOf_selectedVars o x (MIPVar.altruistVar ja.1) hb
    have hchains := selectedChains_eq_countP o x ja.2
    cases hx : x (MIPVar.altruistVar ja.1) with
    | true =>
      left
      rw [hx, if_pos rfl] at hcount
      refine ⟨by rw [← hx]; exact hcontains, ?_⟩
      rw [hchains]
      omega
    | false =>
      right
      rw [hx, if_neg (by simp)] at hcount
      refine ⟨by rw [← hx]; exact hcontains, ?_⟩
      rw [hchains]
      omega

lemma enumLoop_sels_sound (o : PoolOptimiser) (c : OptCriterion) (solver : Solver)
    (ms : Int) (hs : SolverSound solver) (C0 : List Constr) :
    ∀ (fuel : Nat) (s : EnumSt) (r : StopReason) (s' : EnumSt),
    enumLoop o c solver ms fuel s = some (Except.ok (r, s')) →
    (∀ cst ∈ C0, cst ∈ s.model.constrs) →
    (∀ sel ∈ s.sels, ∃ x : MIPVar → Bool,
      (∀ cst ∈ C0, Constr.holds x cst = true) ∧ sel = selectedVars o x) →
    ∀ sel ∈ s'.sels, ∃ x : MIPVar → Bool,
      (∀ cst ∈ C0, Constr.holds x cst = true) ∧ sel = selectedVars o x := by
  intro fuel
  induction fuel with
  | zero =>
    intro s r s' h
    rw [enumLoop_zero] at h
    exact Option.noConfusion h
  | succ f ih =>
    intro s r s' h hm hq
    cases hst : enumStep o c solver ms s with
    | cont s1 =>
      obtain ⟨_, hconstrs, _, _, _, hsels, hopt, _, _⟩ :=
        enumStep_cont_inv o c solver ms s s1 hst
      rw [enumLoop_succ_cont o c solver ms f s s1 hst] at h
      refine ih s1 r s' h ?_ ?_
      · intro cst hc
        rw [hconstrs]
        exact List.mem_append_left _ (hm cst hc)
      · intro sel hsel
        rw [hsels] at hsel
        rcases List.mem_append.mp hsel with hmm | hmm
        · exact hq sel hmm
        · rw [List.mem_singleton] at hmm
          subst hmm
          exact ⟨(solver s.model (objectiveTerms o c) (senseOf c)).x,
            fun cst hc =>
              hs s.model (objectiveTerms o c) (senseOf c) hopt cst (hm cst hc), rfl⟩
    | stop r1 s1 =>
      rw [enumLoop_succ_stop o c solver ms f s s1 r1 hst] at h
      injection h with h1
      injection h1 with h2
      injection h2 with h3 h4
      rcases enumStep_stop_inv o c solver ms s r1 s1 hst with h5 | ⟨hopt, _, h5⟩
      · subst h4
        rw [h5]
        exact hq
      · subst h4
        rw [h5]
        simp only [emitState]
        intro sel hsel
        rcases List.mem_append.mp hsel with hmm | hmm
        · exact hq sel hmm
        · rw [List.mem_singleton] at hmm
          subst hmm
          exact ⟨(solver s.model (objectiveTerms o c) (senseOf c)).x,
            fun cst hc =>
              hs s.model (objectiveTerms o c) (senseOf c) hopt cst (hm cst hc), rfl⟩
    | err e =>
      rw [enumLoop_succ_err o c solver ms f s e hst] at h
      injection h with h1
      exact Except.noConfusion h1

/-- **C1.** Every selection emitted by a completed `solve` run with a sound
solver satisfies the disjointness invariants: no patient appears in more than
one selected cycle or chain; no paired donor linked to more than one patient
appears in more than one selected cycle or chain; and every altruist is
accounted for by exactly one outcome — either its unused variable is selected
and no chain it initiates is, or it is not selected and exactly one chain it
initiates is. -/
theorem C1_selection_invariants (o : PoolOptimiser) (g : List OptCriterion)
    (solver : Solver) (ms : Int) (fuel : Nat) (out : SolveOut)
    (hs : SolverSound solver)
    (h : solve o g solver ms fuel = some (Except.ok out)) :
    ∀ sel ∈ out.sels,
      (∀ p ∈ o.pool.patients, selectedItemsWithPatient o sel p ≤ 1)
      ∧ (∀ d ∈ o.pool.paired_donors, 1 < d.paired_patients.length →
          selectedItemsWithDonor o sel d ≤ 1)
      ∧ (∀ ja ∈ o.pool.altruists.enum,
          (sel.contains (MIPVar.altruistVar ja.1) = true
            ∧ selectedChainsFromAltruist o sel ja.2 = 0)
          ∨ (sel.contains (MIPVar.altruistVar ja.1) = false
            ∧ selectedChainsFromAltruist o sel ja.2 = 1)) := by
  intro sel hsel
  obtain ⟨c0, cs, m1, r, s', hg, hlex, hloop, hout⟩ :=
    solve_ok_inv o g solver ms fuel out h
  have hC0 : ∀ cst ∈ (create_vars_and_constraints o).constrs,
      cst ∈ (EnumSt.mk m1 (-1) 0 [] []).model.constrs :=
    fun cst hc => lexPhase_mono o solver _ _ _ hlex cst hc
  have hsound := enumLoop_sels_sound o ((c0 :: cs).getLast (List.cons_ne_nil c0 cs))
    solver ms hs (create_vars_and_constraints o).constrs
    fuel (EnumSt.mk m1 (-1) 0 [] []) r s' hloop hC0
    (fun sel1 h1 => absurd h1 (List.not_mem_nil sel1))
  rw [hout] at hsel
  obtain ⟨x, hx, hxe⟩ := hsound sel hsel
  rw [hxe]
  exact selection_invariants_of_feasible o x hx

/-- Witness for C1: the concrete one-patient, one-altruist, one-chain pool
solved with the exact brute-force solver emits the single selection
`[chainVar 0]`, and the invariants hold for it. -/
theorem C1_selection_invariants_witness :
    SolverSound bruteSolver
    ∧ solve c1opt [cchain1] bruteSolver 100 2
        = some (Except.ok (SolveOut.mk 1 1 false StopReason.degraded [1]
            [[MIPVar.chainVar 0]]))
    ∧ ∀ sel ∈ (SolveOut.mk (1 : ℚ) 1 false StopReason.degraded [(1 : ℚ)]
        [[MIPVar.chainVar 0]]).sels,
      (∀ p ∈ c1opt.pool.patients, selectedItemsWithPatient c1opt sel p ≤ 1)
      ∧ (∀ d ∈ c1opt.pool.paired_donors, 1 < d.paired_patients.length →
          selectedItemsWithDonor c1opt sel d ≤ 1)
      ∧ (∀ ja ∈ c1opt.pool.altruists.enum,
          (sel.contains (MIPVar.altruistVar ja.1) = true
            ∧ selectedChainsFromAltruist c1opt sel ja.2 = 0)
          ∨ (sel.contains (MIPVar.altruistVar ja.1) = false
            ∧ selectedChainsFromAltruist c1opt sel ja.2 = 1)) :=
  ⟨bruteSolver_sound, by decide,
    C1_selection_invariants c1opt [cchain1] bruteSolver 100 2
      (SolveOut.mk 1 1 false StopReason.degraded [1] [[MIPVar.chainVar 0]])
      bruteSolver_sound (by decide)⟩

end KepH
